import Mathlib

/-!
Verification of the carbon-aware workload scheduler (backend of the
Real-Time-Carbon-Footprint-Optimizer-for-Cloud-Computing repository).

Shallow embedding conventions:
* Python floats are modelled as `ℚ`; `datetime` values are modelled as `ℚ`
  (hours on an abstract axis); `timedelta(hours=x)` is addition of `x`.
* Python dicts keyed by strings (the carbon map) are association lists,
  `find?` on the first matching key models `dict.get`.
* `datetime.utcnow()` is modelled by an explicit `now : ℚ` parameter.
* Mutation of datacenter capacity is modelled by explicit state passing:
  algorithms thread a `List Datacenter` and update entries positionally
  (`List.set`), which models in-place mutation of the object at that list
  position.  `copy.deepcopy` of the input list is the identity on pure
  values; the caller's list is therefore returned unchanged by the
  call-level wrappers below.
* `random.choice` is modelled by an oracle `r : Nat → Nat` indexed by the
  position of the workload in the processing order; the element picked is
  `avail[(r k) % avail.length]`, which ranges over exactly the choices
  `random.choice` can make.
* Wall-clock execution-time measurement (`execution_time_ms`) is not part
  of the functional behaviour and is modelled as `0`.
-/

namespace CarbonOpt

/-- Embeds `models/workload.py` `Workload` (scheduling-relevant fields;
`arrival_time` and `deadline` are always set after `__post_init__`). -/
structure Workload where
  cpu : ℚ
  memory : ℚ
  duration : ℚ
  priority : Int
  deadline : ℚ
  arrival_time : ℚ
  id : String
deriving DecidableEq, Repr

/-- `Workload.__post_init__` validation bounds (construction raises
otherwise, so algorithms only ever see workloads satisfying this). -/
def Workload.valid (w : Workload) : Prop :=
  0 < w.cpu ∧ w.cpu ≤ 64 ∧ 0 < w.memory ∧ w.memory ≤ 256 ∧
  0 < w.duration ∧ w.duration ≤ 168 ∧ 1 ≤ w.priority ∧ w.priority ≤ 10

instance (w : Workload) : Decidable w.valid := by
  unfold Workload.valid; infer_instance

/-- `Workload.energy_kwh`: `power_kw = cpu * 0.1`, energy = power × duration. -/
def Workload.energy_kwh (w : Workload) : ℚ := w.cpu * (1/10) * w.duration

/-- Embeds `models/datacenter.py` `Datacenter` (fields consumed by the
scheduling algorithms; descriptive metadata — name, location, coordinates,
region code, live carbon fields, timestamps — is never read by them and is
omitted). -/
structure Datacenter where
  id : String
  total_cpu : ℚ
  total_memory : ℚ
  cost_per_core_hour : ℚ
  available_cpu : ℚ
  available_memory : ℚ
deriving DecidableEq, Repr

/-- `Datacenter.can_accommodate`. -/
def Datacenter.canAccommodate (dc : Datacenter) (cpu memory : ℚ) : Bool :=
  decide (cpu ≤ dc.available_cpu) && decide (memory ≤ dc.available_memory)

/-- `Datacenter.allocate`: mutates only when accommodable (the algorithms
always call it right after a successful `can_accommodate` check). -/
def Datacenter.allocate (dc : Datacenter) (cpu memory : ℚ) : Datacenter :=
  if dc.canAccommodate cpu memory then
    { dc with available_cpu := dc.available_cpu - cpu,
              available_memory := dc.available_memory - memory }
  else dc

/-- `Datacenter.reset_capacity`. -/
def Datacenter.resetCapacity (dc : Datacenter) : Datacenter :=
  { dc with available_cpu := dc.total_cpu, available_memory := dc.total_memory }

def dummyDC : Datacenter :=
  { id := "", total_cpu := 0, total_memory := 0, cost_per_core_hour := 0,
    available_cpu := 0, available_memory := 0 }

def dummyW : Workload :=
  { cpu := 0, memory := 0, duration := 0, priority := 0, deadline := 0,
    arrival_time := 0, id := "" }

/-- Positional read of the mutable datacenter list. -/
def dcAt (dcs : List Datacenter) (i : Nat) : Datacenter := dcs.getD i dummyDC

/-- The value part of a carbon-map entry: the inner Python dict, whose
`intensity` / `renewable` keys may each be absent. -/
structure CarbonInfo where
  intensity : Option ℚ
  renewable : Option ℚ
deriving DecidableEq, Repr

/-- `carbon_data : Dict[str, Dict]` as an association list (first match
wins, as in a dict with unique keys). -/
abbrev CarbonMap := List (String × CarbonInfo)

/-- `carbon_data.get(dc_id)` (no default): `None` when the key is absent. -/
def lookupCarbon (m : CarbonMap) (dcId : String) : Option CarbonInfo :=
  (List.find? (fun p => p.1 = dcId) m).map (·.2)

/-- `carbon_data.get(dc.id, {'intensity': 200, 'renewable': 30})` followed
by `.get('intensity', 200)`. -/
def emisIntensity (m : CarbonMap) (dcId : String) : ℚ :=
  match lookupCarbon m dcId with
  | none => 200
  | some info => info.intensity.getD 200

/-- Same dict defaults, for the `renewable` key (default 30). -/
def emisRenewable (m : CarbonMap) (dcId : String) : ℚ :=
  match lookupCarbon m dcId with
  | none => 30
  | some info => info.renewable.getD 30

/-- Embeds `models/schedule.py` `Assignment`. -/
structure Assignment where
  workload_id : String
  datacenter_id : String
  start_time : ℚ
  end_time : ℚ
  carbon_emissions : ℚ
  cost : ℚ
  carbon_intensity : ℚ
  renewable_percentage : ℚ
deriving DecidableEq, Repr

/-- Embeds `models/schedule.py` `Schedule` (wall-clock timing and the
creation timestamp are not functional and are omitted). -/
structure Schedule where
  assignments : List Assignment
  algorithm_used : String
deriving DecidableEq, Repr

/-- `Schedule.total_carbon`. -/
def Schedule.totalCarbon (s : Schedule) : ℚ :=
  (s.assignments.map (·.carbon_emissions)).sum

/-- `Schedule.total_cost`. -/
def Schedule.totalCost (s : Schedule) : ℚ :=
  (s.assignments.map (·.cost)).sum

/-- Insert into an already sorted list, after all elements whose key is
`≤` the new key — the insertion step of a stable sort. -/
def insertKeyed {α κ : Type} (lt : κ → κ → Bool) (key : α → κ) (x : α) :
    List α → List α
  | [] => [x]
  | y :: ys =>
    if lt (key x) (key y) then x :: y :: ys else y :: insertKeyed lt key x ys

/-- Stable insertion sort by key — models Python's stable `sorted(·, key=·)`. -/
def sortKeyed {α κ : Type} (lt : κ → κ → Bool) (key : α → κ) :
    List α → List α
  | [] => []
  | x :: xs => insertKeyed lt key x (sortKeyed lt key xs)

/-- `sorted(workloads, key=lambda w: w.arrival_time)` (the greedy variant
`w.arrival_time or utcnow()` coincides with this once workloads are
validated, because `__post_init__` always sets `arrival_time`). -/
def sortByArrival (ws : List Workload) : List Workload :=
  sortKeyed (fun a b => decide (a < b)) (·.arrival_time) ws

/-- Lexicographic strict order on a pair of rational keys, as Python
compares tuple keys. -/
def lexLt (a b : ℚ × ℚ) : Bool :=
  decide (a.1 < b.1) || (decide (a.1 = b.1) && decide (a.2 < b.2))

/-- `sorted(workloads, key=lambda w: (-w.priority, w.arrival_time))` —
the processing order of `dp_schedule`. -/
def dpSortWorkloads (ws : List Workload) : List Workload :=
  sortKeyed lexLt (fun w => ((-w.priority : ℚ), w.arrival_time)) ws

/-- Indices of datacenters that can accommodate the workload, in list
order — the feasible candidate set every algorithm filters out. -/
def feasibleIdx (dcs : List Datacenter) (w : Workload) : List Nat :=
  (List.range dcs.length).filter
    (fun i => (dcAt dcs i).canAccommodate w.cpu w.memory)

/-- FCFS selection: `for dc in dcs: if dc.can_accommodate(...): ... break`
— the first feasible datacenter in list order. -/
def pickFCFS (dcs : List Datacenter) (w : Workload) : Option Nat :=
  (feasibleIdx dcs w).head?

/-- `get_carbon_intensity` in `greedy.py`: `999` when the datacenter has
no entry in the carbon map, and when its entry lacks an `intensity` key. -/
def gKey (m : CarbonMap) (dc : Datacenter) : ℚ :=
  match lookupCarbon m dc.id with
  | none => 999
  | some info => info.intensity.getD 999

/-- First index attaining the minimal key — models
`available_dcs.sort(key=get_carbon_intensity)` (a stable sort) followed by
`available_dcs[0]`. -/
def pickMinKey (key : Nat → ℚ) : List Nat → Option Nat
  | [] => none
  | x :: xs =>
    match pickMinKey key xs with
    | none => some x
    | some y => if key y < key x then some y else some x

/-- Greedy selection: lowest-intensity feasible datacenter, ties broken by
list order. -/
def pickGreedy (m : CarbonMap) (dcs : List Datacenter) (w : Workload) :
    Option Nat :=
  pickMinKey (fun i => gKey m (dcAt dcs i)) (feasibleIdx dcs w)

/-- Random selection: `random.choice(available_dcs)` driven by the oracle
`r` at position `k`. -/
def pickRandom (r : Nat → Nat) (k : Nat) (dcs : List Datacenter)
    (w : Workload) : Option Nat :=
  match feasibleIdx dcs w with
  | [] => none
  | f => some (f.getD (r k % f.length) 0)

/-- The assignment record built by `fcfs`/`round_robin`/`random`/`greedy`
for a workload placed on `dc` (all four build it identically, with the
same dict defaults). -/
def mkAssignment (m : CarbonMap) (w : Workload) (dc : Datacenter) :
    Assignment :=
  { workload_id := w.id
    datacenter_id := dc.id
    start_time := w.arrival_time
    end_time := w.arrival_time + w.duration
    carbon_emissions := w.energy_kwh * emisIntensity m dc.id
    cost := w.cpu * w.duration * dc.cost_per_core_hour
    carbon_intensity := emisIntensity m dc.id
    renewable_percentage := emisRenewable m dc.id }

/-- Main loop shared by `fcfs_schedule`, `greedy_schedule` and
`random_schedule`: process workloads in order; `pick` selects the
datacenter index (each algorithm's own selection rule); on success record
the assignment and allocate capacity on that datacenter; otherwise the
workload is silently dropped.  `k` is the position in processing order
(only the random oracle reads it). -/
def schedAux (m : CarbonMap) (pick : Nat → List Datacenter → Workload → Option Nat) :
    Nat → List Datacenter → List Workload → List Assignment
  | _, _, [] => []
  | k, dcs, w :: rest =>
    match pick k dcs w with
    | none => schedAux m pick (k + 1) dcs rest
    | some i =>
      mkAssignment m w (dcAt dcs i) ::
        schedAux m pick (k + 1)
          (dcs.set i ((dcAt dcs i).allocate w.cpu w.memory)) rest

/-- `baseline.py` `fcfs_schedule`. -/
def fcfsSchedule (ws : List Workload) (dcs : List Datacenter)
    (m : CarbonMap) : Schedule :=
  { assignments := schedAux m (fun _ d w => pickFCFS d w) 0 dcs (sortByArrival ws)
    algorithm_used := "fcfs" }

/-- `greedy.py` `greedy_schedule`. -/
def greedySchedule (ws : List Workload) (dcs : List Datacenter)
    (m : CarbonMap) : Schedule :=
  { assignments := schedAux m (fun _ d w => pickGreedy m d w) 0 dcs (sortByArrival ws)
    algorithm_used := "greedy" }

/-- `baseline.py` `random_schedule`, with choice oracle `r`. -/
def randomSchedule (r : Nat → Nat) (ws : List Workload)
    (dcs : List Datacenter) (m : CarbonMap) : Schedule :=
  { assignments := schedAux m (pickRandom r) 0 dcs (sortByArrival ws)
    algorithm_used := "random" }

/-- The round-robin scan: starting at cursor `idx`, the offset `j` (number
of failed attempts) of the first datacenter `dcs[(idx+j) % len]` with
capacity, scanning at most `len` candidates. -/
def rrFind (dcs : List Datacenter) (idx : Nat) (w : Workload) : Option Nat :=
  (List.range dcs.length).find?
    (fun j => (dcAt dcs ((idx + j) % dcs.length)).canAccommodate w.cpu w.memory)

/-- Main loop of `round_robin_schedule`: on success at offset `j` the task
is placed at position `(idx+j) % len` and the cursor becomes `idx+j+1`; on
failure the cursor has advanced `len` times inside the while loop plus the
trailing increment. -/
def rrAux (m : CarbonMap) : Nat → List Datacenter → List Workload → List Assignment
  | _, _, [] => []
  | idx, dcs, w :: rest =>
    match rrFind dcs idx w with
    | none => rrAux m (idx + dcs.length + 1) dcs rest
    | some j =>
      mkAssignment m w (dcAt dcs ((idx + j) % dcs.length)) ::
        rrAux m (idx + j + 1)
          (dcs.set ((idx + j) % dcs.length)
            ((dcAt dcs ((idx + j) % dcs.length)).allocate w.cpu w.memory)) rest

/-- `baseline.py` `round_robin_schedule`. -/
def rrSchedule (ws : List Workload) (dcs : List Datacenter)
    (m : CarbonMap) : Schedule :=
  { assignments := rrAux m 0 dcs (sortByArrival ws)
    algorithm_used := "round_robin" }

/-- `carbon_forecast : Dict[(dc_id, slot), Dict]` as an association list. -/
abbrev ForecastMap := List ((String × Nat) × CarbonInfo)

/-- `carbon_forecast.get((dc_id, t))`. -/
def lookupForecast (f : ForecastMap) (dcId : String) (t : Nat) :
    Option CarbonInfo :=
  (List.find? (fun p => p.1 = (dcId, t)) f).map (·.2)

/-- `get_carbon_data(dc_id, t).get('intensity', 200)` in `dp_schedule`
(dict default `{'intensity': 200, 'renewable': 30}`). -/
def fcIntensity (f : ForecastMap) (dcId : String) (t : Nat) : ℚ :=
  match lookupForecast f dcId t with
  | none => 200
  | some info => info.intensity.getD 200

/-- Same, for the `renewable` key (default 30). -/
def fcRenewable (f : ForecastMap) (dcId : String) (t : Nat) : ℚ :=
  match lookupForecast f dcId t with
  | none => 30
  | some info => info.renewable.getD 30

/-- `task_duration_slots = max(1, int(task.duration))`: Python `int()`
truncates; validated durations are positive, so truncation is `⌊·⌋`. -/
def durationSlots (w : Workload) : Nat := max 1 (Int.toNat ⌊w.duration⌋)

/-- A DP cell `(carbon, assignments)`: `none` models `float('inf')` (the
value of every key absent from the sparse `dp` dict, always paired with
`[]`). -/
abbrev DPCell := Option ℚ × List Assignment

/-- The `best_prev` scan inside `dp_schedule`: fold over the previous
layer's cells in iteration order, keeping the first strict improvement of
`prev_carbon + carbon_cost` (an `inf` cell never improves; a finite cell
always beats an `inf` accumulator, mirroring IEEE `inf` comparisons). -/
def bestPrevAux (cost : ℚ) (best : Option (ℚ × List Assignment)) :
    List DPCell → Option (ℚ × List Assignment)
  | [] => best
  | s :: rest =>
    match s.1, best with
    | none, _ => bestPrevAux cost best rest
    | some pc, none => bestPrevAux cost (some (pc + cost, s.2)) rest
    | some pc, some (bc, ba) =>
      if pc + cost < bc then bestPrevAux cost (some (pc + cost, s.2)) rest
      else bestPrevAux cost (some (bc, ba)) rest

/-- The final `min_carbon` scan of `dp_schedule`: starts at
`(inf, [])` and keeps the first strict improvement. -/
def bestFinalAux (best : DPCell) : List DPCell → DPCell
  | [] => best
  | s :: rest =>
    match s.1, best.1 with
    | none, _ => bestFinalAux best rest
    | some c, none => bestFinalAux (some c, s.2) rest
    | some c, some bc =>
      if c < bc then bestFinalAux (some c, s.2) rest
      else bestFinalAux best rest

/-- Layer `i` of the sparse `dp` dict of `dp_schedule`: `dpLayer ... i t d`
is `dp.get((i, t, d), (inf, []))`.  Keys that the loops never write
(slot overflow, index out of range, capacity check failed with an explicit
`(inf, [])` write) all read back as `(none, [])`. -/
def dpLayer (dcs : List Datacenter) (f : ForecastMap) (T : Nat) (now : ℚ)
    (sorted : List Workload) : Nat → Nat → Nat → DPCell
  | 0 => fun t d =>
    if t < T ∧ d < dcs.length then (some 0, []) else (none, [])
  | i + 1 => fun t d =>
    let prev := dpLayer dcs f T now sorted i
    let task := sorted.getD i dummyW
    if i + 1 ≤ sorted.length ∧ t + durationSlots task ≤ T ∧ t < T ∧
        d < dcs.length then
      if (dcAt dcs d).canAccommodate task.cpu task.memory then
        let dc := dcAt dcs d
        let intensity := fcIntensity f dc.id t
        let carbonCost := task.energy_kwh * intensity
        let states := (List.range (t + 1)).flatMap
          (fun tp => (List.range dcs.length).map (fun dp2 => prev tp dp2))
        match bestPrevAux carbonCost none states with
        | none => (none, [])
        | some (bc, pa) =>
          (some bc, pa ++
            [{ workload_id := task.id
               datacenter_id := dc.id
               start_time := now + t
               end_time := now + t + task.duration
               carbon_emissions := carbonCost
               cost := task.cpu * task.duration * dc.cost_per_core_hour
               carbon_intensity := intensity
               renewable_percentage := fcRenewable f dc.id t }])
      else (none, [])
    else (none, [])

/-- `dynamic_programming.py` `dp_schedule` (with `time_slots = T` and the
ambient `datetime.utcnow()` base time modelled by `now`). -/
def dpSchedule (ws : List Workload) (dcs : List Datacenter)
    (f : ForecastMap) (T : Nat) (now : ℚ) : Schedule :=
  if ws.length = 0 then { assignments := [], algorithm_used := "dp" }
  else
    let sorted := dpSortWorkloads ws
    let layer := dpLayer dcs f T now sorted sorted.length
    let states := (List.range T).flatMap
      (fun t => (List.range dcs.length).map (fun d => layer t d))
    { assignments := (bestFinalAux (none, []) states).2
      algorithm_used := "dp" }

/-- `metrics.py` `carbon_saved = base_carbon - opt_carbon`. -/
def carbonSaved (opt base : Schedule) : ℚ :=
  base.totalCarbon - opt.totalCarbon

/-- `metrics.py` `percent_reduction = (carbon_saved / base_carbon * 100)
if base_carbon > 0 else 0` — the full-precision value; the returned dict
additionally applies presentation rounding `round(·, 1)`. -/
def percentReduction (opt base : Schedule) : ℚ :=
  if 0 < base.totalCarbon then carbonSaved opt base / base.totalCarbon * 100
  else 0

/-- The values of `OptimizerService.ALGORITHMS` (the three schedule
functions it maps algorithm names to). -/
inductive AlgoFn
  | greedy
  | dp
  | fcfs
deriving DecidableEq, Repr

/-- `OptimizerService.ALGORITHMS` as an association list. -/
def ALGORITHMS : List (String × AlgoFn) :=
  [("greedy", .greedy), ("dp", .dp), ("fcfs", .fcfs)]

/-- `self.ALGORITHMS.get(algorithm)` (no default applied here). -/
def algoGet (name : String) : Option AlgoFn :=
  (List.find? (fun p => p.1 = name) ALGORITHMS).map (·.2)

/-- `models/datacenter.py` `DEFAULT_DATACENTERS` (scheduling-relevant
fields; `available` starts at `total` via `__post_init__`). -/
def DEFAULT_DATACENTERS : List Datacenter :=
  [ { id := "UK-North", total_cpu := 800, total_memory := 3200,
      cost_per_core_hour := 45/1000, available_cpu := 800,
      available_memory := 3200 },
    { id := "UK-South", total_cpu := 1200, total_memory := 4800,
      cost_per_core_hour := 55/1000, available_cpu := 1200,
      available_memory := 4800 },
    { id := "UK-Midlands", total_cpu := 600, total_memory := 2400,
      cost_per_core_hour := 48/1000, available_cpu := 600,
      available_memory := 2400 },
    { id := "UK-Scotland", total_cpu := 500, total_memory := 2000,
      cost_per_core_hour := 42/1000, available_cpu := 500,
      available_memory := 2000 },
    { id := "UK-Wales", total_cpu := 400, total_memory := 1600,
      cost_per_core_hour := 44/1000, available_cpu := 400,
      available_memory := 1600 },
    { id := "UK-East", total_cpu := 700, total_memory := 2800,
      cost_per_core_hour := 50/1000, available_cpu := 700,
      available_memory := 2800 } ]

/-- `OptimizerService._get_fresh_datacenters`: optional id-subset filter
(`if datacenter_ids:` is false for `None` and for `[]`), then the
carbon-data filter (`if carbon_data:` is false for an empty dict), then a
deep copy with `reset_capacity()`. -/
def getFreshDatacenters (catalog : List Datacenter)
    (ids : Option (List String)) (m : CarbonMap) : List Datacenter :=
  let dcs := match ids with
    | none => catalog
    | some l => if l.isEmpty then catalog
                else catalog.filter (fun dc => l.contains dc.id)
  let dcs := if List.isEmpty m then dcs
             else dcs.filter (fun dc => (lookupCarbon m dc.id).isSome)
  dcs.map Datacenter.resetCapacity

/-- The result bundle of `OptimizerService.optimize` (the metrics bundle
it also returns is computed by the pure metric functions above and is not
needed by any claim; `success` is the literal `'success': True` key). -/
structure OptimizeResult where
  success : Bool
  schedule : Schedule
  baseline : Schedule
  datacenters_used : List String
deriving DecidableEq, Repr

/-- `OptimizerService.optimize`.  The external carbon provider's two
responses (`get_current_intensity()` and `get_forecast(24)`) are the
injected parameters `m` and `f`; `now` models the ambient wall clock.
Dispatch is `self.ALGORITHMS.get(algorithm, greedy_schedule)` — note the
`greedy_schedule` default — and the forecast branch is guarded by the
string comparison `algorithm == 'dp'`. -/
def optimize (catalog : List Datacenter) (m : CarbonMap) (f : ForecastMap)
    (now : ℚ) (ws : List Workload) (algorithm : String)
    (ids : Option (List String)) : OptimizeResult :=
  let dcs := getFreshDatacenters catalog ids m
  let algoFn := (algoGet algorithm).getD .greedy
  let schedule :=
    if algorithm = "dp" then dpSchedule ws dcs f 24 now
    else
      match algoFn with
      | .greedy => greedySchedule ws dcs m
      | .fcfs => fcfsSchedule ws dcs m
      | .dp => dpSchedule ws dcs f 24 now
  let baselineDcs := getFreshDatacenters catalog ids m
  let baseline := fcfsSchedule ws baselineDcs m
  { success := true
    schedule := schedule
    baseline := baseline
    datacenters_used := dcs.map (·.id) }

/-!
Call-level wrappers modelling the caller-visible state after each
algorithm call.  In the source, `fcfs_schedule`, `round_robin_schedule`,
`random_schedule` (baseline.py:24/84/152) and `greedy_schedule`
(greedy.py:31) begin with `dcs = copy.deepcopy(...)` and every
`dc.allocate(...)` targets members of that copy, so the caller's
`Datacenter` objects are untouched; `dp_schedule` makes no copy but only
ever calls the pure predicate `can_accommodate` on the caller's objects
and never `allocate`.  No function mutates a `Workload`.  Each wrapper
returns, next to the `Schedule`, the caller's datacenter list and
workload list as they stand after the call. -/

def fcfsCall (ws : List Workload) (dcs : List Datacenter) (m : CarbonMap) :
    Schedule × List Datacenter × List Workload :=
  (fcfsSchedule ws dcs m, dcs, ws)

def rrCall (ws : List Workload) (dcs : List Datacenter) (m : CarbonMap) :
    Schedule × List Datacenter × List Workload :=
  (rrSchedule ws dcs m, dcs, ws)

def randomCall (r : Nat → Nat) (ws : List Workload) (dcs : List Datacenter)
    (m : CarbonMap) : Schedule × List Datacenter × List Workload :=
  (randomSchedule r ws dcs m, dcs, ws)

def greedyCall (ws : List Workload) (dcs : List Datacenter) (m : CarbonMap) :
    Schedule × List Datacenter × List Workload :=
  (greedySchedule ws dcs m, dcs, ws)

def dpCall (ws : List Workload) (dcs : List Datacenter) (f : ForecastMap)
    (T : Nat) (now : ℚ) : Schedule × List Datacenter × List Workload :=
  (dpSchedule ws dcs f T now, dcs, ws)

/-- The cpu demand of the (unique, when ids are duplicate-free) input
workload carrying the given id — used to express "sum of cpu demands of
the assignments bound to a datacenter". -/
def wCpu (ws : List Workload) (wid : String) : ℚ :=
  match List.find? (fun w => w.id = wid) ws with
  | some w => w.cpu
  | none => 0

/-- Memory counterpart of `wCpu`. -/
def wMem (ws : List Workload) (wid : String) : ℚ :=
  match List.find? (fun w => w.id = wid) ws with
  | some w => w.memory
  | none => 0

/-- Sum of the cpu demands of all assignments bound to the datacenter with
the given id. -/
def assignedCpu (ws : List Workload) (assigns : List Assignment)
    (dcid : String) : ℚ :=
  ((assigns.filter (fun a => a.datacenter_id = dcid)).map
    (fun a => wCpu ws a.workload_id)).sum

/-- Memory counterpart of `assignedCpu`. -/
def assignedMem (ws : List Workload) (assigns : List Assignment)
    (dcid : String) : ℚ :=
  ((assigns.filter (fun a => a.datacenter_id = dcid)).map
    (fun a => wMem ws a.workload_id)).sum

/-! Concrete fixtures used by counterexamples and witnesses. -/

/-- Workload constructor for fixtures. -/
def wMk (id : String) (cpu mem dur : ℚ) (prio : Int) (arr ddl : ℚ) :
    Workload :=
  { cpu := cpu, memory := mem, duration := dur, priority := prio,
    deadline := ddl, arrival_time := arr, id := id }

/-- Datacenter constructor for fixtures (full capacity, cost 0.05). -/
def dcMk (id : String) (cpu mem : ℚ) : Datacenter :=
  { id := id, total_cpu := cpu, total_memory := mem,
    cost_per_core_hour := 1/20, available_cpu := cpu,
    available_memory := mem }

/-- C5 fixture datacenters: a medium-intensity first-fit target, a
low-intensity small one, a high-intensity large one. -/
def c5dcs : List Datacenter :=
  [dcMk "M" 60 1000, dcMk "A" 60 1000, dcMk "B" 1000 1000]

/-- C5 fixture carbon map: intensities 100 / 10 / 1000. -/
def c5carbon : CarbonMap :=
  [("M", ⟨some 100, some 30⟩), ("A", ⟨some 10, some 30⟩),
   ("B", ⟨some 1000, some 30⟩)]

/-- C5 fixture workloads: a cpu-heavy low-energy task followed by a
cpu-light high-energy task. -/
def c5ws : List Workload :=
  [wMk "w1" 60 10 1 5 0 24, wMk "w2" 1 1 100 5 1 24]

/-- C6 counterexample datacenters: two, each with 60 cpu. -/
def c6dcs : List Datacenter := [dcMk "D0" 60 1000, dcMk "D1" 60 1000]

/-- C6 counterexample workloads: four tasks of 60 cpu each; each fits each
datacenter at full capacity, but the datacenters deplete. -/
def c6ws : List Workload :=
  [wMk "a" 60 1 1 5 0 24, wMk "b" 60 1 1 5 1 24,
   wMk "c" 60 1 1 5 2 24, wMk "d" 60 1 1 5 3 24]

/-- C6 witness datacenters: three, with ample capacity. -/
def c6wdcs : List Datacenter :=
  [dcMk "E0" 1000 4000, dcMk "E1" 1000 4000, dcMk "E2" 1000 4000]

/-- C6 witness workloads: six identical small tasks. -/
def c6wws : List Workload :=
  [wMk "p" 4 8 2 5 0 24, wMk "q" 4 8 2 5 1 24, wMk "s" 4 8 2 5 2 24,
   wMk "t" 4 8 2 5 3 24, wMk "u" 4 8 2 5 4 24, wMk "v" 4 8 2 5 5 24]

/-- C2 counterexample: a single datacenter with 100 cpu. -/
def c2dcs : List Datacenter := [dcMk "DC" 100 1000]

/-- C2 counterexample: two 60-cpu workloads; each fits alone, both
together exceed 100 cpu. -/
def c2ws : List Workload :=
  [wMk "x" 60 10 1 5 0 24, wMk "y" 60 10 1 5 1 24]

/-- C3 counterexample: an early-deadline low-priority workload and a
late-deadline high-priority one. -/
def c3ws : List Workload := [wMk "w1" 1 1 1 1 0 1, wMk "w2" 1 1 1 9 0 10]

/-- C3 counterexample: a workload of duration 1.5 hours (rounds up to 2
slots, truncates to 1). -/
def c3wHalf : Workload := wMk "z" 1 1 (3/2) 5 0 24

/-- C3 counterexample: a workload whose deadline (= its arrival) already
excludes every start slot. -/
def c3wLate : Workload := wMk "l" 1 1 1 5 0 0

/-- C3 counterexample forecast: slot 1 is strictly cheaper than slot 0, so
the DP delays the task past its deadline. -/
def c3forecast : ForecastMap :=
  [(("DC", 0), ⟨some 100, some 30⟩), (("DC", 1), ⟨some 1, some 30⟩)]

/-- C1 fixture carbon map (two catalog datacenters have data). -/
def c1carbon : CarbonMap :=
  [("UK-North", ⟨some 50, some 60⟩), ("UK-South", ⟨some 250, some 10⟩)]

/-- C1 fixture workload. -/
def c1ws : List Workload := [wMk "t" 4 8 2 5 0 24]

/-- Assignment fixture for metric witnesses. -/
def aMk (e : ℚ) : Assignment :=
  { workload_id := "w", datacenter_id := "d", start_time := 0, end_time := 1,
    carbon_emissions := e, cost := 1, carbon_intensity := 100,
    renewable_percentage := 30 }

/-- Empty schedule fixture. -/
def sEmpty : Schedule := { assignments := [], algorithm_used := "fcfs" }

/-- One-assignment schedule fixture (50 g emissions). -/
def sFifty : Schedule := { assignments := [aMk 50], algorithm_used := "greedy" }

/-- One-assignment schedule fixture (100 g emissions). -/
def sHundred : Schedule := { assignments := [aMk 100], algorithm_used := "fcfs" }

/-- C10 tie fixture: two datacenters with identical carbon intensity. -/
def c10dcs : List Datacenter := [dcMk "T0" 100 100, dcMk "T1" 100 100]

/-- C10 tie fixture carbon map. -/
def c10carbon : CarbonMap :=
  [("T0", ⟨some 50, some 30⟩), ("T1", ⟨some 50, some 30⟩)]

/-- Small workload fixture reused by several witnesses. -/
def wSmall : Workload := wMk "t" 4 8 2 5 0 24

/-- Soundness of a selection function: a returned index is in range and
its datacenter can accommodate the workload. -/
def PickSound (pick : Nat → List Datacenter → Workload → Option Nat) : Prop :=
  ∀ k dcs w i, pick k dcs w = some i →
    i < dcs.length ∧ (dcAt dcs i).canAccommodate w.cpu w.memory = true

/-- Shared hypothesis bundle: datacenters start with capacities in
`[0, total]` (the documented ledger invariant). -/
def DcsOk (dcs : List Datacenter) : Prop :=
  ∀ dc ∈ dcs, 0 ≤ dc.available_cpu ∧ dc.available_cpu ≤ dc.total_cpu ∧
    0 ≤ dc.available_memory ∧ dc.available_memory ≤ dc.total_memory

instance (dcs : List Datacenter) : Decidable (DcsOk dcs) := by
  unfold DcsOk; infer_instance

/-- The per-schedule conclusion of claim C9: no more assignments than
input workloads, every assignment id drawn from the input ids, and no id
assigned twice. -/
def UniqueAssign (ws : List Workload) (s : Schedule) : Prop :=
  s.assignments.length ≤ ws.length ∧
  (∀ a ∈ s.assignments, a.workload_id ∈ ws.map (·.id)) ∧
  (s.assignments.map (·.workload_id)).Nodup

/-! ### Toolkit lemmas -/

theorem insertKeyed_perm {α κ : Type} (lt : κ → κ → Bool) (key : α → κ)
    (x : α) (l : List α) : (insertKeyed lt key x l).Perm (x :: l) := by
  induction l with
  | nil => simp [insertKeyed]
  | cons y ys ih =>
    simp only [insertKeyed]
    by_cases h : lt (key x) (key y) = true
    · simp [h]
    · simp only [h, if_false]
      exact ((ih.cons y).trans (List.Perm.swap x y ys))

theorem sortKeyed_perm {α κ : Type} (lt : κ → κ → Bool) (key : α → κ)
    (l : List α) : (sortKeyed lt key l).Perm l := by
  induction l with
  | nil => simp [sortKeyed]
  | cons x xs ih =>
    exact (insertKeyed_perm lt key x (sortKeyed lt key xs)).trans (ih.cons x)

theorem sortByArrival_perm (ws : List Workload) :
    (sortByArrival ws).Perm ws := sortKeyed_perm _ _ ws

theorem dpSortWorkloads_perm (ws : List Workload) :
    (dpSortWorkloads ws).Perm ws := sortKeyed_perm _ _ ws

theorem dcAt_lt (dcs : List Datacenter) (i : Nat) (h : i < dcs.length) :
    dcAt dcs i = dcs[i] := by
  simp [dcAt, List.getD_eq_getElem?_getD, List.getElem?_eq_getElem h]

theorem dcAt_mem (dcs : List Datacenter) (i : Nat) (h : i < dcs.length) :
    dcAt dcs i ∈ dcs := by
  rw [dcAt_lt dcs i h]; exact List.getElem_mem h

theorem allocate_id (dc : Datacenter) (c m : ℚ) :
    (dc.allocate c m).id = dc.id := by
  unfold Datacenter.allocate; split <;> rfl

theorem allocate_total (dc : Datacenter) (c m : ℚ) :
    (dc.allocate c m).total_cpu = dc.total_cpu ∧
    (dc.allocate c m).total_memory = dc.total_memory := by
  unfold Datacenter.allocate; split <;> exact ⟨rfl, rfl⟩

theorem allocate_of_can (dc : Datacenter) (c m : ℚ)
    (h : dc.canAccommodate c m = true) :
    (dc.allocate c m).available_cpu = dc.available_cpu - c ∧
    (dc.allocate c m).available_memory = dc.available_memory - m := by
  unfold Datacenter.allocate; rw [h]; exact ⟨rfl, rfl⟩

theorem canAccommodate_iff (dc : Datacenter) (c m : ℚ) :
    dc.canAccommodate c m = true ↔
    c ≤ dc.available_cpu ∧ m ≤ dc.available_memory := by
  simp [Datacenter.canAccommodate]

theorem dcAt_set_self (dcs : List Datacenter) (i : Nat) (dc : Datacenter)
    (h : i < dcs.length) : dcAt (dcs.set i dc) i = dc := by
  rw [dcAt_lt _ i (by simpa using h)]
  simp [List.getElem_set]

theorem dcAt_set_other (dcs : List Datacenter) (i j : Nat) (dc : Datacenter)
    (hne : i ≠ j) (hj : j < dcs.length) :
    dcAt (dcs.set i dc) j = dcAt dcs j := by
  rw [dcAt_lt _ j (by simpa using hj), dcAt_lt _ j hj]
  simp [List.getElem_set, hne]

theorem map_id_set (dcs : List Datacenter) (i : Nat) (dc : Datacenter)
    (hi : i < dcs.length) (hid : dc.id = (dcAt dcs i).id) :
    (dcs.set i dc).map (·.id) = dcs.map (·.id) := by
  apply List.ext_getElem (by simp)
  intro j hj hj'
  simp only [List.getElem_map, List.getElem_set]
  by_cases h : i = j
  · subst h
    have hdc : dc.id = dcs[i].id := by rw [hid, dcAt_lt _ i hi]
    simp [hdc]
  · simp [h]

theorem mem_feasibleIdx (dcs : List Datacenter) (w : Workload) (i : Nat) :
    i ∈ feasibleIdx dcs w ↔
    i < dcs.length ∧ (dcAt dcs i).canAccommodate w.cpu w.memory = true := by
  simp [feasibleIdx, List.mem_filter, List.mem_range]

theorem feasibleIdx_pairwise (dcs : List Datacenter) (w : Workload) :
    (feasibleIdx dcs w).Pairwise (· < ·) :=
  List.Pairwise.sublist (List.filter_sublist _) (List.pairwise_lt_range _)

theorem pickMinKey_eq_none (key : Nat → ℚ) (l : List Nat) :
    pickMinKey key l = none ↔ l = [] := by
  cases l with
  | nil => simp [pickMinKey]
  | cons x xs =>
    cases hx : pickMinKey key xs with
    | none => simp [pickMinKey, hx]
    | some y =>
      by_cases hk : key y < key x
      · simp [pickMinKey, hx, hk]
      · simp [pickMinKey, hx, hk]

theorem pickMinKey_mem (key : Nat → ℚ) :
    ∀ (l : List Nat) (i : Nat), pickMinKey key l = some i → i ∈ l := by
  intro l
  induction l with
  | nil => intro i h; simp [pickMinKey] at h
  | cons x xs ih =>
    intro i h
    cases hx : pickMinKey key xs with
    | none =>
      simp only [pickMinKey, hx] at h
      obtain rfl : x = i := by simpa using h
      exact List.mem_cons_self x xs
    | some y =>
      simp only [pickMinKey, hx] at h
      by_cases hk : key y < key x
      · rw [if_pos hk] at h
        obtain rfl : y = i := by simpa using h
        exact List.mem_cons_of_mem x (ih y hx)
      · rw [if_neg hk] at h
        obtain rfl : x = i := by simpa using h
        exact List.mem_cons_self x xs

theorem pickMinKey_le (key : Nat → ℚ) :
    ∀ (l : List Nat) (i : Nat), pickMinKey key l = some i →
      ∀ j ∈ l, key i ≤ key j := by
  intro l
  induction l with
  | nil => intro i h; simp [pickMinKey] at h
  | cons x xs ih =>
    intro i h j hj
    cases hx : pickMinKey key xs with
    | none =>
      simp only [pickMinKey, hx] at h
      obtain rfl : x = i := by simpa using h
      have hnil : xs = [] := (pickMinKey_eq_none key xs).1 hx
      subst hnil
      rcases List.mem_cons.1 hj with rfl | hj2
      · exact le_refl _
      · exact absurd hj2 (by simp)
    | some y =>
      simp only [pickMinKey, hx] at h
      by_cases hk : key y < key x
      · rw [if_pos hk] at h
        obtain rfl : y = i := by simpa using h
        rcases List.mem_cons.1 hj with rfl | hj2
        · exact le_of_lt hk
        · exact ih y hx j hj2
      · rw [if_neg hk] at h
        obtain rfl : x = i := by simpa using h
        rcases List.mem_cons.1 hj with rfl | hj2
        · exact le_refl _
        · exact le_trans (not_lt.1 hk) (ih y hx j hj2)

theorem pickMinKey_first (key : Nat → ℚ) :
    ∀ (l : List Nat) (i : Nat), l.Pairwise (· < ·) →
      pickMinKey key l = some i → ∀ j ∈ l, j < i → key i < key j := by
  intro l
  induction l with
  | nil => intro i _ h; simp [pickMinKey] at h
  | cons x xs ih =>
    intro i hpw h j hj hji
    have hpw2 : xs.Pairwise (· < ·) := (List.pairwise_cons.1 hpw).2
    have hxlt : ∀ a ∈ xs, x < a := (List.pairwise_cons.1 hpw).1
    cases hx : pickMinKey key xs with
    | none =>
      simp only [pickMinKey, hx] at h
      obtain rfl : x = i := by simpa using h
      have hnil : xs = [] := (pickMinKey_eq_none key xs).1 hx
      subst hnil
      rcases List.mem_cons.1 hj with rfl | hj2
      · exact absurd hji (lt_irrefl j)
      · exact absurd hj2 (by simp)
    | some y =>
      simp only [pickMinKey, hx] at h
      by_cases hk : key y < key x
      · rw [if_pos hk] at h
        obtain rfl : y = i := by simpa using h
        rcases List.mem_cons.1 hj with rfl | hj2
        · exact hk
        · exact ih y hpw2 hx j hj2 hji
      · rw [if_neg hk] at h
        obtain rfl : x = i := by simpa using h
        rcases List.mem_cons.1 hj with rfl | hj2
        · exact absurd hji (lt_irrefl j)
        · exact absurd hji (not_lt.2 (le_of_lt (hxlt j hj2)))

theorem pickFCFS_sound :
    PickSound (fun _ dcs w => pickFCFS dcs w) := by
  intro _ dcs w i h
  have hm : i ∈ feasibleIdx dcs w := by
    unfold pickFCFS at h
    exact List.mem_of_mem_head? h
  exact (mem_feasibleIdx dcs w i).1 hm

theorem pickGreedy_mem_feasible (m : CarbonMap) (dcs : List Datacenter)
    (w : Workload) (i : Nat) (h : pickGreedy m dcs w = some i) :
    i ∈ feasibleIdx dcs w :=
  pickMinKey_mem _ _ i h

theorem pickGreedy_sound (m : CarbonMap) :
    PickSound (fun _ dcs w => pickGreedy m dcs w) := by
  intro _ dcs w i h
  exact (mem_feasibleIdx dcs w i).1 (pickGreedy_mem_feasible m dcs w i h)

theorem pickRandom_sound (r : Nat → Nat) : PickSound (pickRandom r) := by
  intro k dcs w i h
  unfold pickRandom at h
  cases hf : feasibleIdx dcs w with
  | nil => rw [hf] at h; exact absurd h (by simp)
  | cons x xs =>
    rw [hf] at h
    simp only [Option.some.injEq] at h
    have hlen : 0 < (x :: xs).length := by simp
    have hmem : i ∈ (x :: xs) := by
      rw [← h]
      have hmod : r k % (x :: xs).length < (x :: xs).length :=
        Nat.mod_lt _ hlen
      rw [List.getD_eq_getElem?_getD, List.getElem?_eq_getElem hmod]
      exact List.getElem_mem hmod
    exact (mem_feasibleIdx dcs w i).1 (hf ▸ hmem)

theorem wCpu_resolve (ws : List Workload)
    (hnd : (ws.map (·.id)).Nodup) (w : Workload) (hw : w ∈ ws) :
    wCpu ws w.id = w.cpu ∧ wMem ws w.id = w.memory := by
  induction ws with
  | nil => exact absurd hw (by simp)
  | cons v vs ih =>
    rcases List.mem_cons.1 hw with rfl | hw2
    · simp [wCpu, wMem, List.find?]
    · have hne : v.id ≠ w.id := by
        intro he
        have : w.id ∈ vs.map (·.id) := List.mem_map_of_mem _ hw2
        rw [← he] at this
        exact (List.nodup_cons.1 hnd).1 this
      have hnd2 : (vs.map (·.id)).Nodup := (List.nodup_cons.1 hnd).2
      have := ih hnd2 hw2
      simpa [wCpu, wMem, List.find?, hne] using this

/-- The workload ids of the assignments produced by the shared main loop
form a sublist of the ids of the processed workload list. -/
theorem schedAux_wids_sublist (m : CarbonMap)
    (pick : Nat → List Datacenter → Workload → Option Nat) :
    ∀ (ws : List Workload) (k : Nat) (dcs : List Datacenter),
      ((schedAux m pick k dcs ws).map (·.workload_id)).Sublist
        (ws.map (·.id)) := by
  intro ws
  induction ws with
  | nil => intro k dcs; simp [schedAux]
  | cons w rest ih =>
    intro k dcs
    cases hp : pick k dcs w with
    | none =>
      simp only [schedAux, hp]
      exact (ih (k + 1) dcs).cons w.id
    | some i =>
      simp only [schedAux, hp, List.map_cons]
      exact (ih (k + 1) _).cons₂ w.id

/-- Same for the round-robin main loop. -/
theorem rrAux_wids_sublist (m : CarbonMap) :
    ∀ (ws : List Workload) (idx : Nat) (dcs : List Datacenter),
      ((rrAux m idx dcs ws).map (·.workload_id)).Sublist (ws.map (·.id)) := by
  intro ws
  induction ws with
  | nil => intro idx dcs; simp [rrAux]
  | cons w rest ih =>
    intro idx dcs
    cases hp : rrFind dcs idx w with
    | none =>
      simp only [rrAux, hp]
      exact (ih _ dcs).cons w.id
    | some j =>
      simp only [rrAux, hp, List.map_cons]
      exact (ih _ _).cons₂ w.id

theorem assignedCpu_nil (ws : List Workload) (dcid : String) :
    assignedCpu ws [] dcid = 0 := rfl

theorem assignedMem_nil (ws : List Workload) (dcid : String) :
    assignedMem ws [] dcid = 0 := rfl

theorem assignedCpu_cons (ws : List Workload) (a : Assignment)
    (l : List Assignment) (dcid : String) :
    assignedCpu ws (a :: l) dcid =
      (if a.datacenter_id = dcid then wCpu ws a.workload_id else 0) +
        assignedCpu ws l dcid := by
  by_cases h : a.datacenter_id = dcid
  · simp [assignedCpu, List.filter_cons, h]
  · simp [assignedCpu, List.filter_cons, h]

theorem assignedMem_cons (ws : List Workload) (a : Assignment)
    (l : List Assignment) (dcid : String) :
    assignedMem ws (a :: l) dcid =
      (if a.datacenter_id = dcid then wMem ws a.workload_id else 0) +
        assignedMem ws l dcid := by
  by_cases h : a.datacenter_id = dcid
  · simp [assignedMem, List.filter_cons, h]
  · simp [assignedMem, List.filter_cons, h]

theorem dcId_inj (dcs : List Datacenter) (hnd : (dcs.map (·.id)).Nodup)
    (i j : Nat) (hi : i < dcs.length) (hj : j < dcs.length) (hne : i ≠ j) :
    (dcAt dcs i).id ≠ (dcAt dcs j).id := by
  rw [dcAt_lt _ i hi, dcAt_lt _ j hj]
  intro he
  have hi' : i < (dcs.map (·.id)).length := by simpa using hi
  have hj' : j < (dcs.map (·.id)).length := by simpa using hj
  have he' : (dcs.map (·.id))[i] = (dcs.map (·.id))[j] := by
    simpa [List.getElem_map] using he
  exact hne ((List.Nodup.getElem_inj_iff hnd).1 he')

/-- Core capacity invariant of the shared main loop: for every datacenter
position, the cpu (and memory) demand summed over the produced assignments
bound to that datacenter's id never exceeds its available capacity at loop
entry. -/
theorem schedAux_capacity (m : CarbonMap)
    (pick : Nat → List Datacenter → Workload → Option Nat)
    (hpick : PickSound pick) (wsAll : List Workload) :
    ∀ (ws : List Workload) (k : Nat) (dcs : List Datacenter),
      (∀ w ∈ ws, wCpu wsAll w.id = w.cpu ∧ wMem wsAll w.id = w.memory ∧
        0 < w.cpu ∧ 0 < w.memory) →
      (dcs.map (·.id)).Nodup →
      (∀ j, j < dcs.length → 0 ≤ (dcAt dcs j).available_cpu ∧
        0 ≤ (dcAt dcs j).available_memory) →
      ∀ j, j < dcs.length →
        assignedCpu wsAll (schedAux m pick k dcs ws) (dcAt dcs j).id ≤
          (dcAt dcs j).available_cpu ∧
        assignedMem wsAll (schedAux m pick k dcs ws) (dcAt dcs j).id ≤
          (dcAt dcs j).available_memory := by
  intro ws
  induction ws with
  | nil =>
    intro k dcs _ _ hav j hj
    simp only [schedAux, assignedCpu_nil, assignedMem_nil]
    exact hav j hj
  | cons w rest ih =>
    intro k dcs hws hnd hav j hj
    cases hp : pick k dcs w with
    | none =>
      simp only [schedAux, hp]
      exact ih (k + 1) dcs (fun v hv => hws v (List.mem_cons_of_mem w hv))
        hnd hav j hj
    | some i =>
      obtain ⟨hi, hacc⟩ := hpick k dcs w i hp
      have hcan := (canAccommodate_iff _ _ _).1 hacc
      obtain ⟨hwid, hwmem, hwc, hwm⟩ := hws w (List.mem_cons_self w rest)
      set dc := dcAt dcs i with hdc
      set dcA := dc.allocate w.cpu w.memory with hdcA
      set dcs2 := dcs.set i dcA with hdcs2
      have hlen2 : dcs2.length = dcs.length := List.length_set dcs i dcA
      have hidA : dcA.id = dc.id := allocate_id dc _ _
      have hmap2 : dcs2.map (·.id) = dcs.map (·.id) :=
        map_id_set dcs i dcA hi hidA
      have hself : dcAt dcs2 i = dcA := dcAt_set_self dcs i dcA hi
      have hother : ∀ q, q ≠ i → q < dcs.length → dcAt dcs2 q = dcAt dcs q :=
        fun q hq hql => dcAt_set_other dcs i q dcA (fun he => hq he.symm) hql
      obtain ⟨hacpu, hamem⟩ := allocate_of_can dc _ _ hacc
      have hav2 : ∀ q, q < dcs2.length → 0 ≤ (dcAt dcs2 q).available_cpu ∧
          0 ≤ (dcAt dcs2 q).available_memory := by
        intro q hq
        rw [hlen2] at hq
        by_cases hqi : q = i
        · subst hqi
          rw [hself, hacpu, hamem]
          constructor <;> linarith [hcan.1, hcan.2]
        · rw [hother q hqi hq]
          exact hav q hq
      have ihall := ih (k + 1) dcs2
        (fun v hv => hws v (List.mem_cons_of_mem w hv))
        (hmap2 ▸ hnd) hav2
      simp only [schedAux, hp]
      by_cases hji : j = i
      · subst hji
        have ihj := ihall j (by rw [hlen2]; exact hj)
        rw [hself, hidA, hacpu, hamem] at ihj
        rw [assignedCpu_cons, assignedMem_cons]
        have hdcid : (mkAssignment m w dc).datacenter_id = dc.id := rfl
        have hwid' : (mkAssignment m w dc).workload_id = w.id := rfl
        rw [hdcid, hwid', if_pos rfl, if_pos rfl, hwid, hwmem]
        constructor <;> linarith [ihj.1, ihj.2]
      · have ihj := ihall j (by rw [hlen2]; exact hj)
        rw [hother j hji hj] at ihj
        rw [assignedCpu_cons, assignedMem_cons]
        have hne : (mkAssignment m w dc).datacenter_id ≠ (dcAt dcs j).id :=
          dcId_inj dcs hnd i j hi hj (fun he => hji he.symm)
        rw [if_neg hne, if_neg hne]
        constructor <;> linarith [ihj.1, ihj.2]

theorem rrFind_sound (dcs : List Datacenter) (idx : Nat) (w : Workload)
    (j : Nat) (h : rrFind dcs idx w = some j) :
    j < dcs.length ∧
    (dcAt dcs ((idx + j) % dcs.length)).canAccommodate w.cpu w.memory = true := by
  unfold rrFind at h
  have hmem := List.mem_of_find?_eq_some h
  have hp := List.find?_some h
  exact ⟨List.mem_range.1 hmem, by simpa using hp⟩

/-- Capacity invariant of the round-robin main loop, mirroring
`schedAux_capacity`. -/
theorem rrAux_capacity (m : CarbonMap) (wsAll : List Workload) :
    ∀ (ws : List Workload) (idx : Nat) (dcs : List Datacenter),
      (∀ w ∈ ws, wCpu wsAll w.id = w.cpu ∧ wMem wsAll w.id = w.memory ∧
        0 < w.cpu ∧ 0 < w.memory) →
      (dcs.map (·.id)).Nodup →
      (∀ j, j < dcs.length → 0 ≤ (dcAt dcs j).available_cpu ∧
        0 ≤ (dcAt dcs j).available_memory) →
      ∀ j, j < dcs.length →
        assignedCpu wsAll (rrAux m idx dcs ws) (dcAt dcs j).id ≤
          (dcAt dcs j).available_cpu ∧
        assignedMem wsAll (rrAux m idx dcs ws) (dcAt dcs j).id ≤
          (dcAt dcs j).available_memory := by
  intro ws
  induction ws with
  | nil =>
    intro idx dcs _ _ hav j hj
    simp only [rrAux, assignedCpu_nil, assignedMem_nil]
    exact hav j hj
  | cons w rest ih =>
    intro idx dcs hws hnd hav j hj
    cases hp : rrFind dcs idx w with
    | none =>
      simp only [rrAux, hp]
      exact ih _ dcs (fun v hv => hws v (List.mem_cons_of_mem w hv))
        hnd hav j hj
    | some jo =>
      obtain ⟨hjo, hacc⟩ := rrFind_sound dcs idx w jo hp
      have hlenpos : 0 < dcs.length := Nat.zero_lt_of_lt hjo
      set p := (idx + jo) % dcs.length with hpdef
      have hplt : p < dcs.length := Nat.mod_lt _ hlenpos
      have hcan := (canAccommodate_iff _ _ _).1 hacc
      obtain ⟨hwid, hwmem, hwc, hwm⟩ := hws w (List.mem_cons_self w rest)
      set dc := dcAt dcs p with hdc
      set dcA := dc.allocate w.cpu w.memory with hdcA
      set dcs2 := dcs.set p dcA with hdcs2
      have hlen2 : dcs2.length = dcs.length := List.length_set dcs p dcA
      have hidA : dcA.id = dc.id := allocate_id dc _ _
      have hmap2 : dcs2.map (·.id) = dcs.map (·.id) :=
        map_id_set dcs p dcA hplt hidA
      have hself : dcAt dcs2 p = dcA := dcAt_set_self dcs p dcA hplt
      have hother : ∀ q, q ≠ p → q < dcs.length → dcAt dcs2 q = dcAt dcs q :=
        fun q hq hql => dcAt_set_other dcs p q dcA (fun he => hq he.symm) hql
      obtain ⟨hacpu, hamem⟩ := allocate_of_can dc _ _ hacc
      have hav2 : ∀ q, q < dcs2.length → 0 ≤ (dcAt dcs2 q).available_cpu ∧
          0 ≤ (dcAt dcs2 q).available_memory := by
        intro q hq
        rw [hlen2] at hq
        by_cases hqp : q = p
        · subst hqp
          rw [hself, hacpu, hamem]
          constructor <;> linarith [hcan.1, hcan.2]
        · rw [hother q hqp hq]
          exact hav q hq
      have ihall := ih (idx + jo + 1) dcs2
        (fun v hv => hws v (List.mem_cons_of_mem w hv))
        (hmap2 ▸ hnd) hav2
      simp only [rrAux, hp]
      by_cases hjp : j = p
      · rw [hjp]
        have ihj := ihall p (by rw [hlen2]; exact hplt)
        rw [hself, hidA, hacpu, hamem] at ihj
        rw [assignedCpu_cons, assignedMem_cons]
        have hdcid : (mkAssignment m w dc).datacenter_id = dc.id := rfl
        have hwid' : (mkAssignment m w dc).workload_id = w.id := rfl
        rw [hdcid, hwid', if_pos rfl, if_pos rfl, hwid, hwmem]
        constructor <;> linarith [ihj.1, ihj.2]
      · have ihj := ihall j (by rw [hlen2]; exact hj)
        rw [hother j hjp hj] at ihj
        rw [assignedCpu_cons, assignedMem_cons]
        have hne : (mkAssignment m w dc).datacenter_id ≠ (dcAt dcs j).id :=
          dcId_inj dcs hnd p j hplt hj (fun he => hjp he.symm)
        rw [if_neg hne, if_neg hne]
        constructor <;> linarith [ihj.1, ihj.2]

theorem resolve_of_perm (ws : List Workload) (hnd : (ws.map (·.id)).Nodup)
    (hpos : ∀ w ∈ ws, 0 < w.cpu ∧ 0 < w.memory) (ws2 : List Workload)
    (hperm : ws2.Perm ws) :
    ∀ w ∈ ws2, wCpu ws w.id = w.cpu ∧ wMem ws w.id = w.memory ∧
      0 < w.cpu ∧ 0 < w.memory := by
  intro w hw
  have hw2 : w ∈ ws := hperm.mem_iff.1 hw
  obtain ⟨h1, h2⟩ := wCpu_resolve ws hnd w hw2
  exact ⟨h1, h2, (hpos w hw2).1, (hpos w hw2).2⟩

theorem avail_of_mem (dcs : List Datacenter)
    (hdc : ∀ dc ∈ dcs, 0 ≤ dc.available_cpu ∧ 0 ≤ dc.available_memory) :
    ∀ j, j < dcs.length → 0 ≤ (dcAt dcs j).available_cpu ∧
      0 ≤ (dcAt dcs j).available_memory := by
  intro j hj
  rw [dcAt_lt _ j hj]
  exact hdc _ (List.getElem_mem hj)

theorem capacityFromAux (ws : List Workload) (dcs : List Datacenter)
    (assigns : List Assignment)
    (h : ∀ j, j < dcs.length →
      assignedCpu ws assigns (dcAt dcs j).id ≤ (dcAt dcs j).available_cpu ∧
      assignedMem ws assigns (dcAt dcs j).id ≤ (dcAt dcs j).available_memory)
    (hdc : ∀ dc ∈ dcs, dc.available_cpu ≤ dc.total_cpu ∧
      dc.available_memory ≤ dc.total_memory) :
    ∀ dc ∈ dcs, assignedCpu ws assigns dc.id ≤ dc.total_cpu ∧
      assignedMem ws assigns dc.id ≤ dc.total_memory := by
  intro dc hmem
  obtain ⟨j, hj, rfl⟩ := List.mem_iff_getElem.1 hmem
  have hja := h j hj
  rw [dcAt_lt _ j hj] at hja
  have ht := hdc _ (List.getElem_mem hj)
  exact ⟨le_trans hja.1 ht.1, le_trans hja.2 ht.2⟩

theorem fcfs_capacity (m : CarbonMap) (ws : List Workload)
    (dcs : List Datacenter) (hndw : (ws.map (·.id)).Nodup)
    (hpos : ∀ w ∈ ws, 0 < w.cpu ∧ 0 < w.memory)
    (hndd : (dcs.map (·.id)).Nodup) (hdc : DcsOk dcs) :
    ∀ dc ∈ dcs,
      assignedCpu ws (fcfsSchedule ws dcs m).assignments dc.id ≤ dc.total_cpu ∧
      assignedMem ws (fcfsSchedule ws dcs m).assignments dc.id ≤ dc.total_memory :=
  capacityFromAux ws dcs _
    (schedAux_capacity m _ pickFCFS_sound ws (sortByArrival ws) 0 dcs
      (resolve_of_perm ws hndw hpos _ (sortByArrival_perm ws)) hndd
      (avail_of_mem dcs (fun dc h => ⟨(hdc dc h).1, (hdc dc h).2.2.1⟩)))
    (fun dc h => ⟨(hdc dc h).2.1, (hdc dc h).2.2.2⟩)

theorem greedy_capacity (m : CarbonMap) (ws : List Workload)
    (dcs : List Datacenter) (hndw : (ws.map (·.id)).Nodup)
    (hpos : ∀ w ∈ ws, 0 < w.cpu ∧ 0 < w.memory)
    (hndd : (dcs.map (·.id)).Nodup) (hdc : DcsOk dcs) :
    ∀ dc ∈ dcs,
      assignedCpu ws (greedySchedule ws dcs m).assignments dc.id ≤ dc.total_cpu ∧
      assignedMem ws (greedySchedule ws dcs m).assignments dc.id ≤ dc.total_memory :=
  capacityFromAux ws dcs _
    (schedAux_capacity m _ (pickGreedy_sound m) ws (sortByArrival ws) 0 dcs
      (resolve_of_perm ws hndw hpos _ (sortByArrival_perm ws)) hndd
      (avail_of_mem dcs (fun dc h => ⟨(hdc dc h).1, (hdc dc h).2.2.1⟩)))
    (fun dc h => ⟨(hdc dc h).2.1, (hdc dc h).2.2.2⟩)

theorem random_capacity (r : Nat → Nat) (m : CarbonMap) (ws : List Workload)
    (dcs : List Datacenter) (hndw : (ws.map (·.id)).Nodup)
    (hpos : ∀ w ∈ ws, 0 < w.cpu ∧ 0 < w.memory)
    (hndd : (dcs.map (·.id)).Nodup) (hdc : DcsOk dcs) :
    ∀ dc ∈ dcs,
      assignedCpu ws (randomSchedule r ws dcs m).assignments dc.id ≤ dc.total_cpu ∧
      assignedMem ws (randomSchedule r ws dcs m).assignments dc.id ≤ dc.total_memory :=
  capacityFromAux ws dcs _
    (schedAux_capacity m _ (pickRandom_sound r) ws (sortByArrival ws) 0 dcs
      (resolve_of_perm ws hndw hpos _ (sortByArrival_perm ws)) hndd
      (avail_of_mem dcs (fun dc h => ⟨(hdc dc h).1, (hdc dc h).2.2.1⟩)))
    (fun dc h => ⟨(hdc dc h).2.1, (hdc dc h).2.2.2⟩)

theorem rr_capacity (m : CarbonMap) (ws : List Workload)
    (dcs : List Datacenter) (hndw : (ws.map (·.id)).Nodup)
    (hpos : ∀ w ∈ ws, 0 < w.cpu ∧ 0 < w.memory)
    (hndd : (dcs.map (·.id)).Nodup) (hdc : DcsOk dcs) :
    ∀ dc ∈ dcs,
      assignedCpu ws (rrSchedule ws dcs m).assignments dc.id ≤ dc.total_cpu ∧
      assignedMem ws (rrSchedule ws dcs m).assignments dc.id ≤ dc.total_memory :=
  capacityFromAux ws dcs _
    (rrAux_capacity m ws (sortByArrival ws) 0 dcs
      (resolve_of_perm ws hndw hpos _ (sortByArrival_perm ws)) hndd
      (avail_of_mem dcs (fun dc h => ⟨(hdc dc h).1, (hdc dc h).2.2.1⟩)))
    (fun dc h => ⟨(hdc dc h).2.1, (hdc dc h).2.2.2⟩)

theorem getD_w_lt (ws : List Workload) (i : Nat) (h : i < ws.length) :
    ws.getD i dummyW = ws[i] := by
  simp [List.getD_eq_getElem?_getD, List.getElem?_eq_getElem h]

/-- Whatever assignment list the `best_prev` scan selects came from a
finite-carbon cell among the scanned states (or the initial accumulator). -/
theorem bestPrevAux_assign (cost : ℚ) (P : List Assignment → Prop) :
    ∀ (states : List DPCell) (best : Option (ℚ × List Assignment)),
      (∀ q pa, best = some (q, pa) → P pa) →
      (∀ s ∈ states, ∀ pc, s.1 = some pc → P s.2) →
      ∀ bc pa, bestPrevAux cost best states = some (bc, pa) → P pa := by
  intro states
  induction states with
  | nil =>
    intro best hb _ bc pa h
    exact hb bc pa (by simpa [bestPrevAux] using h)
  | cons s rest ih =>
    intro best hb hs bc pa h
    have hs_rest : ∀ u ∈ rest, ∀ pc, u.1 = some pc → P u.2 :=
      fun u hu => hs u (List.mem_cons_of_mem s hu)
    cases hs1 : s.1 with
    | none =>
      simp only [bestPrevAux, hs1] at h
      exact ih best hb hs_rest bc pa h
    | some pc =>
      have hPs : P s.2 := hs s (List.mem_cons_self s rest) pc hs1
      cases best with
      | none =>
        simp only [bestPrevAux, hs1] at h
        refine ih _ ?_ hs_rest bc pa h
        intro q pa2 he
        obtain ⟨_, rfl⟩ : q = pc + cost ∧ pa2 = s.2 := by
          constructor <;> simp_all
        exact hPs
      | some b =>
        obtain ⟨bc0, ba0⟩ := b
        simp only [bestPrevAux, hs1] at h
        by_cases hlt : pc + cost < bc0
        · rw [if_pos hlt] at h
          refine ih _ ?_ hs_rest bc pa h
          intro q pa2 he
          obtain ⟨_, rfl⟩ : q = pc + cost ∧ pa2 = s.2 := by
            constructor <;> simp_all
          exact hPs
        · rw [if_neg hlt] at h
          exact ih _ hb hs_rest bc pa h

/-- Same for the final `min_carbon` scan. -/
theorem bestFinalAux_assign (P : List Assignment → Prop) :
    ∀ (states : List DPCell) (best : DPCell),
      (best.2 = [] ∨ P best.2) →
      (∀ s ∈ states, ∀ c, s.1 = some c → P s.2) →
      (bestFinalAux best states).2 = [] ∨ P (bestFinalAux best states).2 := by
  intro states
  induction states with
  | nil =>
    intro best hb _
    simpa [bestFinalAux] using hb
  | cons s rest ih =>
    intro best hb hs
    have hs_rest : ∀ u ∈ rest, ∀ c, u.1 = some c → P u.2 :=
      fun u hu => hs u (List.mem_cons_of_mem s hu)
    cases hs1 : s.1 with
    | none =>
      simp only [bestFinalAux, hs1]
      exact ih best hb hs_rest
    | some c =>
      have hPs : P s.2 := hs s (List.mem_cons_self s rest) c hs1
      cases hb1 : best.1 with
      | none =>
        simp only [bestFinalAux, hs1, hb1]
        exact ih (some c, s.2) (Or.inr hPs) hs_rest
      | some bc =>
        simp only [bestFinalAux, hs1, hb1]
        by_cases hlt : c < bc
        · rw [if_pos hlt]
          exact ih (some c, s.2) (Or.inr hPs) hs_rest
        · rw [if_neg hlt]
          exact ih best hb hs_rest

/-- Every finite-carbon cell of layer `i` carries exactly the ids of the
first `i` workloads in processing order; infinite cells carry `[]`. -/
theorem dpLayer_spec (dcs : List Datacenter) (f : ForecastMap) (T : Nat)
    (now : ℚ) (sorted : List Workload) :
    ∀ i, i ≤ sorted.length → ∀ t d,
      ((dpLayer dcs f T now sorted i t d).1 = none →
        (dpLayer dcs f T now sorted i t d).2 = []) ∧
      (∀ c, (dpLayer dcs f T now sorted i t d).1 = some c →
        (dpLayer dcs f T now sorted i t d).2.map (·.workload_id) =
          (sorted.take i).map (·.id)) := by
  intro i
  induction i with
  | zero =>
    intro _ t d
    by_cases h : t < T ∧ d < dcs.length
    · simp [dpLayer, h]
    · simp [dpLayer, h]
  | succ i ih =>
    intro hle t d
    have hilt : i < sorted.length := Nat.lt_of_succ_le hle
    have hitask : sorted.getD i dummyW = sorted[i] := getD_w_lt sorted i hilt
    have htake : (sorted.take (i + 1)).map (·.id) =
        (sorted.take i).map (·.id) ++ [sorted[i].id] := by
      rw [List.take_succ, List.getElem?_eq_getElem hilt]
      simp only [Option.toList_some, List.map_append, List.map_cons,
        List.map_nil]
    by_cases h1 : i + 1 ≤ sorted.length ∧
        t + durationSlots (sorted.getD i dummyW) ≤ T ∧ t < T ∧
        d < dcs.length
    · by_cases h2 : (dcAt dcs d).canAccommodate (sorted.getD i dummyW).cpu
          (sorted.getD i dummyW).memory = true
      · simp only [dpLayer, h1, if_true, h2]
        set task := sorted.getD i dummyW with htaskdef
        set carbonCost := task.energy_kwh *
          fcIntensity f (dcAt dcs d).id t with hccdef
        set states := (List.range (t + 1)).flatMap
          (fun tp => (List.range dcs.length).map
            (fun dp2 => dpLayer dcs f T now sorted i tp dp2)) with hstdef
        have hstates : ∀ s ∈ states, ∀ pc, s.1 = some pc →
            s.2.map (·.workload_id) = (sorted.take i).map (·.id) := by
          intro s hsmem pc hfin
          rw [hstdef] at hsmem
          obtain ⟨tp, _, hsm⟩ := List.mem_flatMap.1 hsmem
          obtain ⟨dp2, _, rfl⟩ := List.mem_map.1 hsm
          exact (ih (Nat.le_of_lt hilt) tp dp2).2 pc hfin
        cases hbp : bestPrevAux carbonCost none states with
        | none =>
          constructor
          · intro _; rfl
          · intro c hc; exact absurd hc (by simp)
        | some b =>
          obtain ⟨bc, pa⟩ := b
          have hpa : pa.map (·.workload_id) = (sorted.take i).map (·.id) :=
            bestPrevAux_assign carbonCost
              (fun l => l.map (·.workload_id) = (sorted.take i).map (·.id))
              states none (fun q pa2 he => absurd he (by simp)) hstates
              bc pa hbp
          constructor
          · intro hno; exact absurd hno (by simp)
          · intro c _
            simp only [and_self, if_true, List.map_append, hpa, htake, hitask]
            rfl
      · simp only [dpLayer, h1, if_true, h2]
        exact ⟨fun _ => rfl, fun c hc => absurd hc (by simp)⟩
    · simp only [dpLayer, h1]
      exact ⟨fun _ => rfl, fun c hc => absurd hc (by simp)⟩

/-- The DP result is either empty or mentions exactly the processing-order
ids. -/
theorem dpSchedule_wids (ws : List Workload) (dcs : List Datacenter)
    (f : ForecastMap) (T : Nat) (now : ℚ) :
    (dpSchedule ws dcs f T now).assignments = [] ∨
    (dpSchedule ws dcs f T now).assignments.map (·.workload_id) =
      (dpSortWorkloads ws).map (·.id) := by
  unfold dpSchedule
  by_cases h0 : ws.length = 0
  · simp [h0]
  · simp only [h0, if_false]
    apply bestFinalAux_assign
      (fun l => l.map (·.workload_id) = (dpSortWorkloads ws).map (·.id))
    · exact Or.inl rfl
    · intro s hsmem c hfin
      obtain ⟨t, _, hsm⟩ := List.mem_flatMap.1 hsmem
      obtain ⟨d, _, rfl⟩ := List.mem_map.1 hsm
      have := (dpLayer_spec dcs f T now (dpSortWorkloads ws)
        (dpSortWorkloads ws).length (le_refl _) t d).2 c hfin
      rwa [List.take_length] at this

theorem gKey_eq_emis (m : CarbonMap) (dc : Datacenter)
    (h : ∃ info q, lookupCarbon m dc.id = some info ∧
      info.intensity = some q) :
    gKey m dc = emisIntensity m dc.id := by
  obtain ⟨info, q, hl, hq⟩ := h
  simp [gKey, emisIntensity, hl, hq]

theorem energy_nonneg (w : Workload) (hc : 0 ≤ w.cpu) (hd : 0 ≤ w.duration) :
    0 ≤ w.energy_kwh := by
  unfold Workload.energy_kwh
  positivity

theorem totalCarbon_single (a : Assignment) (s : String) :
    Schedule.totalCarbon { assignments := [a], algorithm_used := s } =
      a.carbon_emissions := by
  simp [Schedule.totalCarbon]

theorem totalCarbon_nil (s : String) :
    Schedule.totalCarbon { assignments := [], algorithm_used := s } = 0 := by
  simp [Schedule.totalCarbon]

theorem sortByArrival_single (w : Workload) : sortByArrival [w] = [w] := rfl

theorem schedAux_single (m : CarbonMap)
    (pick : Nat → List Datacenter → Workload → Option Nat)
    (dcs : List Datacenter) (w : Workload) :
    schedAux m pick 0 dcs [w] =
      match pick 0 dcs w with
      | none => []
      | some i => [mkAssignment m w (dcAt dcs i)] := by
  cases hp : pick 0 dcs w <;> simp [schedAux, hp]

/-- C9 conclusion from a sublist of the processing-order ids. -/
theorem uniqueFromSublist (ws : List Workload)
    (hnd : (ws.map (·.id)).Nodup) (s : Schedule)
    (hsub : (s.assignments.map (·.workload_id)).Sublist
      ((sortByArrival ws).map (·.id))) : UniqueAssign ws s := by
  have hperm : ((sortByArrival ws).map (·.id)).Perm (ws.map (·.id)) :=
    (sortByArrival_perm ws).map _
  refine ⟨?_, ?_, ?_⟩
  · have h1 := hsub.length_le
    rw [List.length_map, List.length_map, (sortByArrival_perm ws).length_eq]
      at h1
    simpa using h1
  · intro a ha
    exact hperm.mem_iff.1 (hsub.subset (List.mem_map_of_mem _ ha))
  · exact hsub.nodup (hperm.nodup_iff.2 hnd)

/-- C9 conclusion for the DP result. -/
theorem uniqueDp (ws : List Workload) (hnd : (ws.map (·.id)).Nodup)
    (dcs : List Datacenter) (f : ForecastMap) (T : Nat) (now : ℚ) :
    UniqueAssign ws (dpSchedule ws dcs f T now) := by
  have hperm : ((dpSortWorkloads ws).map (·.id)).Perm (ws.map (·.id)) :=
    (dpSortWorkloads_perm ws).map _
  rcases dpSchedule_wids ws dcs f T now with h | h
  · refine ⟨?_, ?_, ?_⟩
    · simp [h]
    · intro a ha; rw [h] at ha; exact absurd ha (by simp)
    · simp [h]
  · refine ⟨?_, ?_, ?_⟩
    · have h1 : ((dpSchedule ws dcs f T now).assignments.map
          (·.workload_id)).length = ((dpSortWorkloads ws).map (·.id)).length :=
        by rw [h]
      rw [List.length_map, List.length_map,
        (dpSortWorkloads_perm ws).length_eq] at h1
      simp [h1]
    · intro a ha
      have : a.workload_id ∈ (dpSortWorkloads ws).map (·.id) := by
        rw [← h]; exact List.mem_map_of_mem _ ha
      exact hperm.mem_iff.1 this
    · rw [h]; exact hperm.nodup_iff.2 hnd

/-- In the full-fit regime every round-robin placement succeeds at the
first attempt, so the produced datacenter ids rotate through the list. -/
theorem rrAux_dcids (m : CarbonMap) :
    ∀ (ws : List Workload) (idx : Nat) (dcs : List Datacenter),
      0 < dcs.length →
      (∀ w ∈ ws, 0 < w.cpu ∧ 0 < w.memory) →
      (∀ j, j < dcs.length →
        (ws.map (·.cpu)).sum ≤ (dcAt dcs j).available_cpu ∧
        (ws.map (·.memory)).sum ≤ (dcAt dcs j).available_memory) →
      (rrAux m idx dcs ws).map (·.datacenter_id) =
        (List.range ws.length).map
          (fun k => (dcAt dcs ((idx + k) % dcs.length)).id) := by
  intro ws
  induction ws with
  | nil => intro idx dcs _ _ _; simp [rrAux]
  | cons w rest ih =>
    intro idx dcs hD hw hfit
    set p := idx % dcs.length with hpdef
    have hplt : p < dcs.length := Nat.mod_lt _ hD
    have hsumc : 0 ≤ (rest.map (·.cpu)).sum := by
      apply List.sum_nonneg
      intro x hx
      obtain ⟨v, hv, rfl⟩ := List.mem_map.1 hx
      exact le_of_lt (hw v (List.mem_cons_of_mem w hv)).1
    have hsumm : 0 ≤ (rest.map (·.memory)).sum := by
      apply List.sum_nonneg
      intro x hx
      obtain ⟨v, hv, rfl⟩ := List.mem_map.1 hx
      exact le_of_lt (hw v (List.mem_cons_of_mem w hv)).2
    have hsum_cons_c : ((w :: rest).map (·.cpu)).sum =
        w.cpu + (rest.map (·.cpu)).sum := by simp
    have hsum_cons_m : ((w :: rest).map (·.memory)).sum =
        w.memory + (rest.map (·.memory)).sum := by simp
    have hacc : (dcAt dcs p).canAccommodate w.cpu w.memory = true := by
      rw [canAccommodate_iff]
      have h1 := (hfit p hplt).1
      have h2 := (hfit p hplt).2
      rw [hsum_cons_c] at h1
      rw [hsum_cons_m] at h2
      constructor <;> linarith
    have hfind : rrFind dcs idx w = some 0 := by
      obtain ⟨n, hn⟩ : ∃ n, dcs.length = n + 1 :=
        ⟨dcs.length - 1, (Nat.succ_pred_eq_of_pos hD).symm⟩
      unfold rrFind
      rw [hn, List.range_succ_eq_map]
      apply List.find?_cons_of_pos
      simpa [← hn] using hacc
    set dc := dcAt dcs p with hdc
    set dcA := dc.allocate w.cpu w.memory with hdcA
    set dcs2 := dcs.set p dcA with hdcs2
    have hlen2 : dcs2.length = dcs.length := List.length_set dcs p dcA
    have hids2 : ∀ q, q < dcs.length → (dcAt dcs2 q).id = (dcAt dcs q).id := by
      intro q hq
      by_cases hqp : q = p
      · rw [hqp, dcAt_set_self dcs p dcA hplt]
        exact allocate_id dc _ _
      · rw [dcAt_set_other dcs p q dcA (fun he => hqp he.symm) hq]
    obtain ⟨hacpu, hamem⟩ := allocate_of_can dc _ _ hacc
    have hcan := (canAccommodate_iff _ _ _).1 hacc
    have hfit2 : ∀ j, j < dcs2.length →
        (rest.map (·.cpu)).sum ≤ (dcAt dcs2 j).available_cpu ∧
        (rest.map (·.memory)).sum ≤ (dcAt dcs2 j).available_memory := by
      intro j hj
      rw [hlen2] at hj
      by_cases hjp : j = p
      · rw [hjp, dcAt_set_self dcs p dcA hplt, hacpu, hamem]
        have h1 := (hfit p hplt).1
        have h2 := (hfit p hplt).2
        rw [hsum_cons_c] at h1
        rw [hsum_cons_m] at h2
        constructor <;> linarith
      · rw [dcAt_set_other dcs p j dcA (fun he => hjp he.symm) hj]
        have h1 := (hfit j hj).1
        have h2 := (hfit j hj).2
        rw [hsum_cons_c] at h1
        rw [hsum_cons_m] at h2
        have hwc := (hw w (List.mem_cons_self w rest)).1
        have hwm := (hw w (List.mem_cons_self w rest)).2
        constructor <;> linarith
    have ihr := ih (idx + 0 + 1) dcs2 (by rw [hlen2]; exact hD)
      (fun v hv => hw v (List.mem_cons_of_mem w hv)) hfit2
    simp only [rrAux, hfind, List.map_cons, List.length_cons,
      List.range_succ_eq_map, Nat.add_zero]
    simp only [Nat.add_zero] at ihr
    congr 1
    rw [ihr, List.map_map]
    apply List.map_congr_left
    intro k _
    have hmod : (idx + 1 + k) % dcs.length < dcs.length := Nat.mod_lt _ hD
    have harith : idx + 1 + k = idx + Nat.succ k := by omega
    show (dcAt dcs2 ((idx + 1 + k) % dcs2.length)).id = _
    rw [hlen2, hids2 _ hmod, harith]
    rfl

theorem countP_eq_one_range (D j : Nat) (hj : j < D) :
    (List.range D).countP (fun x => x = j) = 1 := by
  induction D with
  | zero => omega
  | succ n ih =>
    rw [List.range_succ, List.countP_append]
    by_cases hjn : j < n
    · rw [ih hjn]
      have hsing : (List.countP (fun x => x = j) [n]) = 0 := by
        rw [List.countP_eq_zero]
        intro a ha
        simp only [List.mem_singleton] at ha
        subst ha
        simp only [decide_eq_true_eq]
        omega
      rw [hsing]
    · have hjeq : j = n := by omega
      subst hjeq
      have h0 : (List.range j).countP (fun x => x = j) = 0 := by
        rw [List.countP_eq_zero]
        intro a ha
        have := List.mem_range.1 ha
        simp only [decide_eq_true_eq]
        omega
      rw [h0]
      simp

theorem countP_mod_range_mul (D j : Nat) (_hD : 0 < D) (hj : j < D) :
    ∀ q, (List.range (D * q)).countP (fun k => k % D = j) = q := by
  intro q
  induction q with
  | zero => simp
  | succ n ih =>
    have he : D * (n + 1) = D * n + D := by ring
    rw [he, List.range_add, List.countP_append, ih]
    have hblk : (List.map (fun x => D * n + x) (List.range D)).countP
        (fun k => k % D = j) = 1 := by
      rw [List.countP_map]
      have hc : ∀ x ∈ List.range D,
          ((fun k => decide (k % D = j)) ∘ (fun x => D * n + x)) x = true ↔
            (fun x => decide (x = j)) x = true := by
        intro x hx
        have hxlt := List.mem_range.1 hx
        simp [Function.comp, Nat.mul_add_mod, Nat.mod_eq_of_lt hxlt]
      rw [List.countP_congr hc]
      exact countP_eq_one_range D j hj
    rw [hblk]

/-- Round-robin balance in the full-fit regime: datacenter at position `j`
receives the assignments of exactly the workloads at positions
`≡ j (mod D)`. -/
theorem rr_balanced (m : CarbonMap) (ws : List Workload)
    (dcs : List Datacenter) (hD : 0 < dcs.length)
    (hndd : (dcs.map (·.id)).Nodup)
    (hw : ∀ w ∈ ws, 0 < w.cpu ∧ 0 < w.memory)
    (hfit : ∀ dc ∈ dcs, (ws.map (·.cpu)).sum ≤ dc.available_cpu ∧
      (ws.map (·.memory)).sum ≤ dc.available_memory)
    (hdvd : dcs.length ∣ ws.length) :
    ∀ j, j < dcs.length →
      (rrSchedule ws dcs m).assignments.countP
        (fun a => a.datacenter_id = (dcAt dcs j).id) =
        ws.length / dcs.length := by
  intro j hj
  set D := dcs.length with hDdef
  have hpermc : ((sortByArrival ws).map (·.cpu)).Perm (ws.map (·.cpu)) :=
    (sortByArrival_perm ws).map _
  have hpermm : ((sortByArrival ws).map (·.memory)).Perm (ws.map (·.memory)) :=
    (sortByArrival_perm ws).map _
  have hw2 : ∀ w ∈ sortByArrival ws, 0 < w.cpu ∧ 0 < w.memory :=
    fun w hmem => hw w ((sortByArrival_perm ws).mem_iff.1 hmem)
  have hfit2 : ∀ q, q < dcs.length →
      ((sortByArrival ws).map (·.cpu)).sum ≤ (dcAt dcs q).available_cpu ∧
      ((sortByArrival ws).map (·.memory)).sum ≤
        (dcAt dcs q).available_memory := by
    intro q hq
    rw [hpermc.sum_eq, hpermm.sum_eq]
    exact hfit _ (dcAt_mem dcs q hq)
  have hdcids := rrAux_dcids m (sortByArrival ws) 0 dcs hD hw2 hfit2
  have hN : (sortByArrival ws).length = ws.length :=
    (sortByArrival_perm ws).length_eq
  have step1 : (rrSchedule ws dcs m).assignments.countP
      (fun a => a.datacenter_id = (dcAt dcs j).id) =
      ((rrSchedule ws dcs m).assignments.map (·.datacenter_id)).countP
        (fun s => s = (dcAt dcs j).id) := by
    rw [List.countP_map]
    rfl
  have hassigns : (rrSchedule ws dcs m).assignments.map (·.datacenter_id) =
      (List.range (sortByArrival ws).length).map
        (fun k => (dcAt dcs ((0 + k) % dcs.length)).id) := hdcids
  rw [step1, hassigns, List.countP_map, hN]
  have hcong : ∀ k ∈ List.range ws.length,
      ((fun s => decide (s = (dcAt dcs j).id)) ∘
        (fun k => (dcAt dcs ((0 + k) % dcs.length)).id)) k = true ↔
      (fun k => decide (k % D = j)) k = true := by
    intro k _
    have hmlt : k % dcs.length < dcs.length := Nat.mod_lt _ hD
    simp only [Function.comp, Nat.zero_add, decide_eq_true_eq]
    constructor
    · intro he
      by_contra hne
      exact dcId_inj dcs hndd (k % dcs.length) j hmlt hj hne he
    · intro he
      rw [he]
  rw [List.countP_congr hcong]
  obtain ⟨q, hq⟩ := hdvd
  rw [hq, countP_mod_range_mul D j hD hj q, Nat.mul_div_cancel_left q hD]

/-! ### Claim theorems -/

/-- C1 (counterexample): calling the orchestrator's `optimize` with the
unknown algorithm name `"windowed"` does not fail: it reports success and
silently runs the greedy algorithm. -/
theorem c1_counterexample :
    (optimize DEFAULT_DATACENTERS c1carbon [] 0 c1ws "windowed" none).success
      = true ∧
    (optimize DEFAULT_DATACENTERS c1carbon [] 0 c1ws
      "windowed" none).schedule.algorithm_used = "greedy" :=
  ⟨rfl, rfl⟩

/-- C1 (amended): for every algorithm name outside the code's actual
supported set `{greedy, dp, fcfs}`, `optimize` silently substitutes the
greedy algorithm and reports success; no configuration error is raised at
the orchestrator level. -/
theorem c1_unknown_name_falls_back_to_greedy (catalog : List Datacenter)
    (m : CarbonMap) (f : ForecastMap) (now : ℚ) (ws : List Workload)
    (name : String) (ids : Option (List String))
    (h1 : name ≠ "greedy") (h2 : name ≠ "dp") (h3 : name ≠ "fcfs") :
    (optimize catalog m f now ws name ids).success = true ∧
    (optimize catalog m f now ws name ids).schedule =
      greedySchedule ws (getFreshDatacenters catalog ids m) m := by
  have e1 : ¬(("greedy" : String) = name) := fun he => h1 he.symm
  have e2 : ¬(("dp" : String) = name) := fun he => h2 he.symm
  have e3 : ¬(("fcfs" : String) = name) := fun he => h3 he.symm
  have hg : algoGet name = none := by
    simp [algoGet, ALGORITHMS, List.find?, e1, e2, e3]
  unfold optimize
  rw [hg]
  simp only [Option.getD_none, if_neg h2]
  exact ⟨trivial, trivial⟩

/-- C1 witness: the amended theorem applied to the name `"random"`. -/
theorem c1_witness :
    ("random" ≠ "greedy" ∧ "random" ≠ "dp" ∧ "random" ≠ "fcfs") ∧
    (optimize DEFAULT_DATACENTERS c1carbon [] 0 c1ws "random" none).success
      = true ∧
    (optimize DEFAULT_DATACENTERS c1carbon [] 0 c1ws "random" none).schedule =
      greedySchedule c1ws
        (getFreshDatacenters DEFAULT_DATACENTERS none c1carbon) c1carbon :=
  ⟨⟨by decide, by decide, by decide⟩,
    c1_unknown_name_falls_back_to_greedy DEFAULT_DATACENTERS c1carbon [] 0
      c1ws "random" none (by decide) (by decide) (by decide)⟩

/-- C4: whenever greedy places a workload (selection function
`pickGreedy`, used verbatim by `greedySchedule`), the chosen datacenter is
feasible and minimizes the greedy sort key over all feasible datacenters
of the current capacity state; a datacenter missing from the carbon map is
keyed with the deprioritizing sentinel 999, not the moderate default 200;
and `greedySchedule` is exactly the main loop driven by `pickGreedy`. -/
theorem c4_greedy_min_intensity_with_sentinel :
    (∀ (m : CarbonMap) (dcs : List Datacenter) (w : Workload) (i : Nat),
      pickGreedy m dcs w = some i →
        i < dcs.length ∧ (dcAt dcs i).canAccommodate w.cpu w.memory = true ∧
        ∀ j, j < dcs.length →
          (dcAt dcs j).canAccommodate w.cpu w.memory = true →
          gKey m (dcAt dcs i) ≤ gKey m (dcAt dcs j)) ∧
    (∀ (m : CarbonMap) (dc : Datacenter),
      lookupCarbon m dc.id = none → gKey m dc = 999) ∧
    (∀ (m : CarbonMap) (ws : List Workload) (dcs : List Datacenter),
      greedySchedule ws dcs m =
        { assignments :=
            schedAux m (fun _ d v => pickGreedy m d v) 0 dcs (sortByArrival ws)
          algorithm_used := "greedy" }) := by
  refine ⟨?_, ?_, ?_⟩
  · intro m dcs w i h
    obtain ⟨hi, hacc⟩ := pickGreedy_sound m 0 dcs w i h
    refine ⟨hi, hacc, ?_⟩
    intro j hj hjacc
    exact pickMinKey_le _ (feasibleIdx dcs w) i h j
      ((mem_feasibleIdx dcs w j).2 ⟨hj, hjacc⟩)
  · intro m dc h
    simp [gKey, h]
  · intro m ws dcs
    rfl

/-- C4 witness: on the C5 fixture, greedy picks index 1 (the
lowest-intensity datacenter), and the sentinel applies to a datacenter
missing from an empty carbon map. -/
theorem c4_witness :
    pickGreedy c5carbon c5dcs wSmall = some 1 ∧
    (1 < c5dcs.length ∧
      (dcAt c5dcs 1).canAccommodate wSmall.cpu wSmall.memory = true ∧
      ∀ j, j < c5dcs.length →
        (dcAt c5dcs j).canAccommodate wSmall.cpu wSmall.memory = true →
        gKey c5carbon (dcAt c5dcs 1) ≤ gKey c5carbon (dcAt c5dcs j)) ∧
    gKey [] dummyDC = 999 := by
  have h : pickGreedy c5carbon c5dcs wSmall = some 1 := by
    with_unfolding_all decide
  exact ⟨h, c4_greedy_min_intensity_with_sentinel.1 c5carbon c5dcs wSmall 1 h,
    c4_greedy_min_intensity_with_sentinel.2.1 [] dummyDC rfl⟩

/-- C7: no algorithm call mutates the caller-owned datacenter or workload
objects: the caller-visible state returned by each call-level wrapper is
the unchanged input (the four list-based algorithms allocate only inside
their deep copies, and the DP strategy never allocates at all). -/
theorem c7_no_caller_mutation (ws : List Workload) (dcs : List Datacenter)
    (m : CarbonMap) (r : Nat → Nat) (f : ForecastMap) (T : Nat) (now : ℚ) :
    (fcfsCall ws dcs m).2 = (dcs, ws) ∧
    (rrCall ws dcs m).2 = (dcs, ws) ∧
    (randomCall r ws dcs m).2 = (dcs, ws) ∧
    (greedyCall ws dcs m).2 = (dcs, ws) ∧
    (dpCall ws dcs f T now).2 = (dcs, ws) :=
  ⟨rfl, rfl, rfl, rfl, rfl⟩

/-- C8: `percent_reduction` equals carbon_saved / baseline total × 100
whenever the baseline total is positive, and equals 0 whenever the
baseline total is 0 (the computation is total — no division by zero is
ever evaluated). -/
theorem c8_percent_reduction_guarded (opt base : Schedule) :
    (0 < base.totalCarbon →
      percentReduction opt base =
        carbonSaved opt base / base.totalCarbon * 100) ∧
    (base.totalCarbon = 0 → percentReduction opt base = 0) := by
  constructor
  · intro h
    simp [percentReduction, h]
  · intro h
    simp [percentReduction, h]

/-- C8 witness: both guard branches at concrete schedules. -/
theorem c8_witness :
    (0 < sHundred.totalCarbon ∧
      percentReduction sFifty sHundred =
        carbonSaved sFifty sHundred / sHundred.totalCarbon * 100) ∧
    (sEmpty.totalCarbon = 0 ∧ percentReduction sFifty sEmpty = 0) :=
  ⟨⟨by with_unfolding_all decide,
      (c8_percent_reduction_guarded sFifty sHundred).1
        (by with_unfolding_all decide)⟩,
    ⟨rfl, (c8_percent_reduction_guarded sFifty sEmpty).2 rfl⟩⟩

/-- C10: when greedy selects index `i`, every feasible datacenter with the
same sort key (equal carbon intensity) sits at position `i` or later: ties
are broken by input list order. -/
theorem c10_greedy_tie_breaks_by_list_order (m : CarbonMap)
    (dcs : List Datacenter) (w : Workload) (i : Nat)
    (h : pickGreedy m dcs w = some i) :
    ∀ j, j < dcs.length →
      (dcAt dcs j).canAccommodate w.cpu w.memory = true →
      gKey m (dcAt dcs j) = gKey m (dcAt dcs i) → i ≤ j := by
  intro j hj hacc heq
  by_contra hgt
  push_neg at hgt
  have hjf : j ∈ feasibleIdx dcs w := (mem_feasibleIdx dcs w j).2 ⟨hj, hacc⟩
  have hlt := pickMinKey_first _ (feasibleIdx dcs w) i
    (feasibleIdx_pairwise dcs w) h j hjf hgt
  rw [heq] at hlt
  exact lt_irrefl _ hlt

/-- C10 witness: two datacenters with equal intensity; greedy picks the
first, and the theorem confirms the tie goes to the earlier position. -/
theorem c10_witness :
    pickGreedy c10carbon c10dcs wSmall = some 0 ∧
    gKey c10carbon (dcAt c10dcs 1) = gKey c10carbon (dcAt c10dcs 0) ∧
    (0 : Nat) ≤ 1 := by
  have h : pickGreedy c10carbon c10dcs wSmall = some 0 := by
    with_unfolding_all decide
  exact ⟨h, by with_unfolding_all decide,
    c10_greedy_tie_breaks_by_list_order c10carbon c10dcs wSmall 0 h 1
      (by decide) (by with_unfolding_all decide)
      (by with_unfolding_all decide)⟩

/-- C5 (counterexample): on the C5 fixture — datacenters of pairwise
distinct intensities 100/10/1000 — FCFS's total carbon (700) is strictly
below greedy's (1060): greedy fills the small low-carbon datacenter with a
cpu-heavy low-energy task and must route the high-energy task to a worse
datacenter than FCFS does. -/
theorem c5_counterexample :
    emisIntensity c5carbon "M" ≠ emisIntensity c5carbon "A" ∧
    (fcfsSchedule c5ws c5dcs c5carbon).totalCarbon <
      (greedySchedule c5ws c5dcs c5carbon).totalCarbon := by
  constructor
  · with_unfolding_all decide
  · with_unfolding_all decide

/-- C5 (amended): on single-workload fixtures in which every datacenter
has a recorded intensity in the carbon map, greedy's total carbon never
exceeds FCFS's. -/
theorem c5_single_workload_greedy_le_fcfs (m : CarbonMap)
    (dcs : List Datacenter) (w : Workload)
    (hfull : ∀ dc ∈ dcs, ∃ info q, lookupCarbon m dc.id = some info ∧
      info.intensity = some q)
    (hc : 0 ≤ w.cpu) (hd : 0 ≤ w.duration) :
    (greedySchedule [w] dcs m).totalCarbon ≤
      (fcfsSchedule [w] dcs m).totalCarbon := by
  have hg : greedySchedule [w] dcs m =
      { assignments := schedAux m (fun _ d v => pickGreedy m d v) 0 dcs [w]
        algorithm_used := "greedy" } := rfl
  have hf : fcfsSchedule [w] dcs m =
      { assignments := schedAux m (fun _ d v => pickFCFS d v) 0 dcs [w]
        algorithm_used := "fcfs" } := rfl
  cases hfe : feasibleIdx dcs w with
  | nil =>
    have hpg : pickGreedy m dcs w = none := by
      unfold pickGreedy
      rw [hfe]
      rfl
    have hpf : pickFCFS dcs w = none := by
      unfold pickFCFS
      rw [hfe]
      rfl
    simp only [hg, hf, schedAux_single, hpg, hpf]
    rw [totalCarbon_nil, totalCarbon_nil]
  | cons x xs =>
    have hne : feasibleIdx dcs w ≠ [] := by rw [hfe]; simp
    have hpf : pickFCFS dcs w = some x := by
      unfold pickFCFS
      rw [hfe]
      rfl
    obtain ⟨i, hpg⟩ : ∃ i, pickGreedy m dcs w = some i := by
      cases hp : pickGreedy m dcs w with
      | none => exact absurd ((pickMinKey_eq_none _ _).1 hp) hne
      | some i => exact ⟨i, rfl⟩
    have hifeas := pickGreedy_mem_feasible m dcs w i hpg
    have hxmem : x ∈ feasibleIdx dcs w := by
      rw [hfe]
      exact List.mem_cons_self x xs
    have hile : gKey m (dcAt dcs i) ≤ gKey m (dcAt dcs x) :=
      pickMinKey_le _ (feasibleIdx dcs w) i hpg x hxmem
    have hilt := ((mem_feasibleIdx dcs w i).1 hifeas).1
    have hxlt := ((mem_feasibleIdx dcs w x).1 hxmem).1
    have hgki := gKey_eq_emis m (dcAt dcs i) (hfull _ (dcAt_mem dcs i hilt))
    have hgkx := gKey_eq_emis m (dcAt dcs x) (hfull _ (dcAt_mem dcs x hxlt))
    simp only [hg, hf, schedAux_single, hpg, hpf]
    rw [totalCarbon_single, totalCarbon_single]
    show w.energy_kwh * emisIntensity m (dcAt dcs i).id ≤
      w.energy_kwh * emisIntensity m (dcAt dcs x).id
    rw [← hgki, ← hgkx]
    exact mul_le_mul_of_nonneg_left hile (energy_nonneg w hc hd)

/-- C5 witness: the amended theorem at a concrete single-workload fixture
with full carbon data. -/
theorem c5_witness :
    (0 ≤ wSmall.cpu ∧ 0 ≤ wSmall.duration) ∧
    (greedySchedule [wSmall] c5dcs c5carbon).totalCarbon ≤
      (fcfsSchedule [wSmall] c5dcs c5carbon).totalCarbon := by
  have hfull : ∀ dc ∈ c5dcs, ∃ info q,
      lookupCarbon c5carbon dc.id = some info ∧ info.intensity = some q := by
    intro dc hdc
    simp only [c5dcs, List.mem_cons, List.not_mem_nil, or_false] at hdc
    rcases hdc with rfl | rfl | rfl
    · exact ⟨⟨some 100, some 30⟩, 100, rfl, rfl⟩
    · exact ⟨⟨some 10, some 30⟩, 10, rfl, rfl⟩
    · exact ⟨⟨some 1000, some 30⟩, 1000, rfl, rfl⟩
  exact ⟨⟨by with_unfolding_all decide, by with_unfolding_all decide⟩,
    c5_single_workload_greedy_le_fcfs c5carbon c5dcs wSmall hfull
      (by with_unfolding_all decide) (by with_unfolding_all decide)⟩

/-- C6 (counterexample): four 60-cpu workloads, each of which fits each of
two 60-cpu datacenters at its initial capacity, with 4 a multiple of 2 —
yet round-robin assigns only one workload per datacenter (the datacenters
deplete), not 4/2 = 2. -/
theorem c6_counterexample :
    (∀ w ∈ c6ws, ∀ dc ∈ c6dcs, dc.canAccommodate w.cpu w.memory = true) ∧
    c6ws.length % c6dcs.length = 0 ∧
    (rrSchedule c6ws c6dcs []).assignments.countP
      (fun a => a.datacenter_id = "D0") = 1 ∧
    c6ws.length / c6dcs.length = 2 := by
  refine ⟨?_, ?_, ?_, ?_⟩
  · with_unfolding_all decide
  · with_unfolding_all decide
  · with_unfolding_all decide
  · with_unfolding_all decide

/-- C6 (amended): when every datacenter can accommodate the combined
demand of all N workloads (so capacity never binds during the run) and D
divides N, round-robin gives every datacenter exactly N / D assignments. -/
theorem c6_round_robin_balanced (m : CarbonMap) (ws : List Workload)
    (dcs : List Datacenter) (hD : 0 < dcs.length)
    (hndd : (dcs.map (·.id)).Nodup)
    (hw : ∀ w ∈ ws, 0 < w.cpu ∧ 0 < w.memory)
    (hfit : ∀ dc ∈ dcs, (ws.map (·.cpu)).sum ≤ dc.available_cpu ∧
      (ws.map (·.memory)).sum ≤ dc.available_memory)
    (hdvd : dcs.length ∣ ws.length) :
    ∀ j, j < dcs.length →
      (rrSchedule ws dcs m).assignments.countP
        (fun a => a.datacenter_id = (dcAt dcs j).id) =
        ws.length / dcs.length :=
  rr_balanced m ws dcs hD hndd hw hfit hdvd

/-- C6 witness: six identical workloads over three ample datacenters —
each receives exactly 6 / 3 = 2 assignments. -/
theorem c6_witness :
    (0 < c6wdcs.length ∧ (c6wdcs.map (·.id)).Nodup ∧
      (∀ w ∈ c6wws, 0 < w.cpu ∧ 0 < w.memory) ∧
      (∀ dc ∈ c6wdcs, (c6wws.map (·.cpu)).sum ≤ dc.available_cpu ∧
        (c6wws.map (·.memory)).sum ≤ dc.available_memory) ∧
      c6wdcs.length ∣ c6wws.length) ∧
    (∀ j, j < c6wdcs.length →
      (rrSchedule c6wws c6wdcs []).assignments.countP
        (fun a => a.datacenter_id = (dcAt c6wdcs j).id) = 2) := by
  refine ⟨⟨by decide, by decide, by with_unfolding_all decide,
    by with_unfolding_all decide, by decide⟩, ?_⟩
  exact c6_round_robin_balanced [] c6wws c6wdcs (by decide) (by decide)
    (by with_unfolding_all decide) (by with_unfolding_all decide) (by decide)

set_option maxRecDepth 100000 in
/-- C2 (counterexample): the DP strategy violates the capacity invariant —
its capacity check consults the undecremented input datacenters and it
never allocates, so two 60-cpu workloads are both bound to a 100-cpu
datacenter (120 > 100). -/
theorem c2_counterexample :
    dcAt c2dcs 0 ∈ c2dcs ∧
    (dcAt c2dcs 0).total_cpu <
      assignedCpu c2ws (dpSchedule c2ws c2dcs [] 2 0).assignments
        (dcAt c2dcs 0).id := by
  constructor
  · with_unfolding_all decide
  · with_unfolding_all decide

/-- C2 (amended): for FCFS, round-robin, random (any oracle) and greedy —
but not the DP strategy — the cpu demand summed over the assignments bound
to any datacenter never exceeds its total cpu, and likewise for memory,
provided the inputs are well-formed (duplicate-free ids, positive demands,
capacities within `[0, total]`). -/
theorem c2_capacity_fcfs_rr_random_greedy (m : CarbonMap)
    (ws : List Workload) (dcs : List Datacenter)
    (hndw : (ws.map (·.id)).Nodup)
    (hpos : ∀ w ∈ ws, 0 < w.cpu ∧ 0 < w.memory)
    (hndd : (dcs.map (·.id)).Nodup) (hdc : DcsOk dcs) :
    ∀ dc ∈ dcs,
      (assignedCpu ws (fcfsSchedule ws dcs m).assignments dc.id ≤
          dc.total_cpu ∧
        assignedMem ws (fcfsSchedule ws dcs m).assignments dc.id ≤
          dc.total_memory) ∧
      (assignedCpu ws (rrSchedule ws dcs m).assignments dc.id ≤
          dc.total_cpu ∧
        assignedMem ws (rrSchedule ws dcs m).assignments dc.id ≤
          dc.total_memory) ∧
      (∀ r, assignedCpu ws (randomSchedule r ws dcs m).assignments dc.id ≤
          dc.total_cpu ∧
        assignedMem ws (randomSchedule r ws dcs m).assignments dc.id ≤
          dc.total_memory) ∧
      (assignedCpu ws (greedySchedule ws dcs m).assignments dc.id ≤
          dc.total_cpu ∧
        assignedMem ws (greedySchedule ws dcs m).assignments dc.id ≤
          dc.total_memory) :=
  fun dc hmem =>
    ⟨fcfs_capacity m ws dcs hndw hpos hndd hdc dc hmem,
      rr_capacity m ws dcs hndw hpos hndd hdc dc hmem,
      fun r => random_capacity r m ws dcs hndw hpos hndd hdc dc hmem,
      greedy_capacity m ws dcs hndw hpos hndd hdc dc hmem⟩

/-- C2 witness: the amended theorem at the C5 fixture, read off at the
first datacenter with the constant-zero random oracle. -/
theorem c2_witness :
    ((c5ws.map (·.id)).Nodup ∧ (∀ w ∈ c5ws, 0 < w.cpu ∧ 0 < w.memory) ∧
      (c5dcs.map (·.id)).Nodup ∧ DcsOk c5dcs) ∧
    assignedCpu c5ws (fcfsSchedule c5ws c5dcs c5carbon).assignments "M" ≤
      60 ∧
    assignedCpu c5ws
      (randomSchedule (fun _ => 0) c5ws c5dcs c5carbon).assignments "M" ≤
      60 := by
  have hndw : (c5ws.map (·.id)).Nodup := by decide
  have hpos : ∀ w ∈ c5ws, 0 < w.cpu ∧ 0 < w.memory := by
    with_unfolding_all decide
  have hndd : (c5dcs.map (·.id)).Nodup := by decide
  have hdc : DcsOk c5dcs := by with_unfolding_all decide
  have hmem : dcMk "M" 60 1000 ∈ c5dcs := by
    simp [c5dcs]
  have hall := c2_capacity_fcfs_rr_random_greedy c5carbon c5ws c5dcs hndw
    hpos hndd hdc (dcMk "M" 60 1000) hmem
  exact ⟨⟨hndw, hpos, hndd, hdc⟩, hall.1.1, (hall.2.2.1 (fun _ => 0)).1⟩

/-- C3 (counterexample): the DP strategy's processing order and slot
arithmetic contradict the claim on three concrete fixtures — (a) the
later-deadline, higher-priority workload is processed (and listed) first;
(b) a 1.5-hour workload occupies only ⌊1.5⌋ = 1 slot and is scheduled
into a 1-slot horizon that its rounded-up duration (2) would overflow;
(c) a workload whose deadline excludes every slot is still scheduled, and
even delayed past its deadline for cheaper carbon. -/
theorem c3_counterexample :
    ((dpSchedule c3ws c2dcs [] 2 0).assignments.map (·.workload_id) =
        ["w2", "w1"] ∧
      (wMk "w1" 1 1 1 1 0 1).deadline < (wMk "w2" 1 1 1 9 0 10).deadline ∧
      (wMk "w2" 1 1 1 9 0 10).priority > (wMk "w1" 1 1 1 1 0 1).priority) ∧
    ((dpSchedule [c3wHalf] c2dcs [] 1 0).assignments.length = 1 ∧
      durationSlots c3wHalf = 1 ∧ Int.toNat ⌈c3wHalf.duration⌉ = 2) ∧
    ((dpSchedule [c3wLate] c2dcs c3forecast 2 0).assignments.map
        (·.start_time) = [1] ∧
      c3wLate.deadline = 0) := by
  refine ⟨⟨?_, ?_, ?_⟩, ⟨?_, ?_, ?_⟩, ⟨?_, ?_⟩⟩
  · with_unfolding_all decide
  · with_unfolding_all decide
  · with_unfolding_all decide
  · with_unfolding_all decide
  · with_unfolding_all decide
  · with_unfolding_all decide
  · with_unfolding_all decide
  · with_unfolding_all decide

/-- C3 (amended): the DP strategy processes workloads sorted by priority
descending with ties by earlier arrival (deadlines play no role); whenever
it returns a nonempty schedule, the assignment list carries exactly those
ids in that order. -/
theorem c3_dp_processing_order (ws : List Workload) (dcs : List Datacenter)
    (f : ForecastMap) (T : Nat) (now : ℚ)
    (h : (dpSchedule ws dcs f T now).assignments ≠ []) :
    (dpSchedule ws dcs f T now).assignments.map (·.workload_id) =
      (dpSortWorkloads ws).map (·.id) :=
  (dpSchedule_wids ws dcs f T now).resolve_left h

/-- C3 witness: the amended theorem on the two-workload fixture. -/
theorem c3_witness :
    (dpSchedule c3ws c2dcs [] 2 0).assignments ≠ [] ∧
    (dpSchedule c3ws c2dcs [] 2 0).assignments.map (·.workload_id) =
      (dpSortWorkloads c3ws).map (·.id) := by
  have h : (dpSchedule c3ws c2dcs [] 2 0).assignments ≠ [] := by
    with_unfolding_all decide
  exact ⟨h, c3_dp_processing_order c3ws c2dcs [] 2 0 h⟩

/-- C9: every algorithm — FCFS, round-robin, random under any oracle,
greedy, and the DP strategy for any forecast/horizon — produces at most
one assignment per input workload: no more assignments than workloads,
every assignment id drawn from the input ids, and no id twice. -/
theorem c9_unique_assignment_ids (m : CarbonMap) (ws : List Workload)
    (dcs : List Datacenter) (hnd : (ws.map (·.id)).Nodup) :
    UniqueAssign ws (fcfsSchedule ws dcs m) ∧
    UniqueAssign ws (rrSchedule ws dcs m) ∧
    (∀ r, UniqueAssign ws (randomSchedule r ws dcs m)) ∧
    UniqueAssign ws (greedySchedule ws dcs m) ∧
    (∀ f T now, UniqueAssign ws (dpSchedule ws dcs f T now)) := by
  refine ⟨?_, ?_, ?_, ?_, ?_⟩
  · exact uniqueFromSublist ws hnd _
      (schedAux_wids_sublist m _ (sortByArrival ws) 0 dcs)
  · exact uniqueFromSublist ws hnd _
      (rrAux_wids_sublist m (sortByArrival ws) 0 dcs)
  · intro r
    exact uniqueFromSublist ws hnd _
      (schedAux_wids_sublist m _ (sortByArrival ws) 0 dcs)
  · exact uniqueFromSublist ws hnd _
      (schedAux_wids_sublist m _ (sortByArrival ws) 0 dcs)
  · intro f T now
    exact uniqueDp ws hnd dcs f T now

/-- C9 witness: the theorem at the C5 fixture, specialized to concrete
oracle and forecast. -/
theorem c9_witness :
    (c5ws.map (·.id)).Nodup ∧
    UniqueAssign c5ws (fcfsSchedule c5ws c5dcs c5carbon) ∧
    UniqueAssign c5ws
      (randomSchedule (fun _ => 0) c5ws c5dcs c5carbon) ∧
    UniqueAssign c5ws (dpSchedule c5ws c5dcs [] 2 0) := by
  have hnd : (c5ws.map (·.id)).Nodup := by decide
  have hall := c9_unique_assignment_ids c5carbon c5ws c5dcs hnd
  exact ⟨hnd, hall.1, hall.2.2.1 (fun _ => 0), hall.2.2.2.2 [] 2 0⟩

end CarbonOpt

